import Mathlib

/-!
Jogo da Velha (tic-tac-toe): the engine of `src/scripts.js`.

A shallow embedding of the classes `Player`, `Board` and `Game` of
`src/scripts.js`, followed by theorems about them.

Modelling conventions, all read off the script:

* a cell is a JavaScript string: `''` (empty), `'X'` or `'O'`;
* `Board.cells` is created by `Array(9).fill('')` and is only ever written at
  a subscript that is one of `0..8` or `undefined`, so it is a `Fin 9 → String`;
* the page creates one cell element per index `0..8` (lines 173-179) and binds
  `handleCellClick(i)` to it, so a click carries an index of type `Fin 9`;
* `Player.score` is a JavaScript number (an IEEE-754 double) that holds a
  non-negative integer: it starts at 0 and is only ever set to 0 or changed by
  `++`. It is a `Nat`, and `++` is `numberIncrement`, which rounds as the double
  does: the counter stops at `2 ^ 53`;
* the DOM is not part of the state; what is kept of it is that
  `document.querySelector('[data-index="…"]')` finds an element exactly for the
  indices `0..8` and returns `null` otherwise (a later property access on
  `null` throws a `TypeError`), and that the page's fixed elements
  (`result-message`, `result-popup`, `score-x`, `score-o`, `current-turn`) exist;
* `Math.floor(Math.random() * emptyCells.length)` is an input `k` of
  `computerMove`;
* `setTimeout(() => this.computerMove(), 500)` is recorded in the outcome of
  `handleCellClick` as `scheduled`; `Page` adds to the engine state the number
  of such callbacks that have not fired yet.
-/

namespace JogoDaVelha

/-- Class `Player` (lines 2-12): `name` is the symbol, `score` the counter. -/
structure Player where
  name : String
  score : Nat

/-- The JavaScript number `n + 1` for a number `n` that holds a non-negative
integer (IEEE-754 double, round to nearest, ties to even). Below `2 ^ 53` the
sum is exact. From `2 ^ 53` to `2 ^ 54` the doubles are the even integers and
the odd sum lies halfway between `n` and `n + 2`: it goes to the one whose half
is even, so `2 ^ 53 + 1` is `2 ^ 53` again. From `2 ^ 54` on the doubles are at
least 4 apart and the sum rounds back to `n`. -/
def numberIncrement (n : Nat) : Nat :=
  if n < 2 ^ 53 then n + 1
  else if n < 2 ^ 54 then (if (n / 2) % 2 = 0 then n else n + 2)
  else n

/-- Method `Player.incrementScore` (lines 9-11): `this.score++`. -/
def Player.incrementScore (p : Player) : Player :=
  { p with score := numberIncrement p.score }

/-- Class `Board` (lines 15-42): the nine cells. The field `winningConditions`
is a constant, see `Board.winningConditions`. -/
structure Board where
  cells : Fin 9 → String

/-- The board built by the constructor: `Array(9).fill('')` (line 17). -/
def Board.new : Board :=
  { cells := fun _ => "" }

/-- The field `winningConditions` (lines 18-22): rows, columns, diagonals. -/
def Board.winningConditions : List (Nat × Nat × Nat) :=
  [ (0, 1, 2), (3, 4, 5), (6, 7, 8),
    (0, 3, 6), (1, 4, 7), (2, 5, 8),
    (0, 4, 8), (2, 4, 6) ]

/-- The read `this.cells[a]` for a number `a`: the cell for `a` in `0..8`,
`undefined` (here `none`) otherwise. -/
def Board.cellAt (b : Board) (a : Nat) : Option String :=
  if h : a < 9 then some (b.cells ⟨a, h⟩) else none

/-- Method `Board.reset` (lines 26-28): `this.cells.fill('')`. -/
def Board.reset (_b : Board) : Board :=
  { cells := fun _ => "" }

/-- Method `Board.checkWinner` (lines 31-36): some winning condition `[a, b, c]`
has `cells[a] === symbol && cells[b] === symbol && cells[c] === symbol`. -/
def Board.checkWinner (b : Board) (symbol : String) : Bool :=
  Board.winningConditions.any fun condition =>
    match condition with
    | (a, b', c) =>
      decide (b.cellAt a = some symbol) && decide (b.cellAt b' = some symbol)
        && decide (b.cellAt c = some symbol)

/-- Method `Board.isFull` (lines 39-41): `this.cells.every(cell => cell !== '')`. -/
def Board.isFull (b : Board) : Bool :=
  (List.finRange 9).all fun i => decide (b.cells i ≠ "")

/-- The assignment `this.board.cells[index] = symbol` (line 76). For an index
in `0..8` the cell is overwritten. For `undefined` JavaScript creates the
property named `"undefined"` on the array object, which no cell read, `fill`,
`every` or `map` ever visits: the nine cells stay as they are. -/
def Board.write (b : Board) (index : Option (Fin 9)) (symbol : String) : Board :=
  match index with
  | some i => { cells := Function.update b.cells i symbol }
  | none => b

/-- Class `Game` (lines 45-52). `players` is the two-element array
`[playerX, playerO]`. -/
structure Game where
  players : Player × Player
  currentPlayerIndex : Nat
  board : Board
  gameActive : Bool
  isPlayingWithBot : Bool

/-- The constructor `new Game(playerX, playerO)` (lines 46-52). -/
def Game.new (playerX playerO : Player) : Game :=
  { players := (playerX, playerO)
    currentPlayerIndex := 0
    board := Board.new
    gameActive := true
    isPlayingWithBot := true }

/-- The game the script starts with (lines 167-169): `new Player('X')`,
`new Player('O')`, `new Game(playerX, playerO)`. -/
def Game.initial : Game :=
  Game.new { name := "X", score := 0 } { name := "O", score := 0 }

/-- The read `this.players[i]`: `undefined` (here `none`) outside `0..1`. -/
def Game.playerAt (g : Game) (i : Nat) : Option Player :=
  match i with
  | 0 => some g.players.1
  | 1 => some g.players.2
  | _ => none

/-- What a call of an engine method leaves behind: the state, whether a
`TypeError` propagated out of the call (`game` is then the state at the point
of the throw), and whether the call ran
`setTimeout(() => this.computerMove(), 500)`. -/
structure Outcome where
  game : Game
  threw : Bool
  scheduled : Bool

/-- Method `Game.switchPlayer` (lines 55-57). -/
def Game.switchPlayer (g : Game) : Game :=
  { g with currentPlayerIndex := if g.currentPlayerIndex = 0 then 1 else 0 }

/-- Method `Game.endGame` (lines 103-123), `winner` defaulting to `null`
(here `none`). The writes to the result message, the scoreboard and the popup
touch the DOM only. -/
def Game.endGame (g : Game) (isDraw : Bool) (winner : Option String) : Game :=
  let g1 := { g with gameActive := false }
  if isDraw then g1
  else if winner = some g1.players.1.name then
    { g1 with players := (g1.players.1.incrementScore, g1.players.2) }
  else
    { g1 with players := (g1.players.1, g1.players.2.incrementScore) }

/-- The lookup `document.querySelector('[data-index="${index}"]')` (line 77):
`true` when an element is found, which is so exactly for the indices `0..8`;
for `undefined` the selector is `[data-index="undefined"]` and the result is
`null`. -/
def cellElementExists (index : Option (Fin 9)) : Bool :=
  index.isSome

/-- Method `Game.makeMove` (lines 75-90). The cell is written first; when the
cell element is `null`, `cell.textContent = symbol` throws and the rest of the
body does not run. `updateStatus` touches the DOM only. -/
def Game.makeMove (g : Game) (index : Option (Fin 9)) (symbol : String) : Outcome :=
  let g1 := { g with board := g.board.write index symbol }
  if cellElementExists index then
    if g1.board.checkWinner symbol then
      { game := g1.endGame false (some symbol), threw := false, scheduled := false }
    else if g1.board.isFull then
      { game := g1.endGame true none, threw := false, scheduled := false }
    else
      { game := g1.switchPlayer, threw := false, scheduled := false }
  else
    { game := g1, threw := true, scheduled := false }

/-- Method `Game.handleCellClick` (lines 60-72). A non-empty string is truthy.
`this.players[this.currentPlayerIndex].name` throws when the index is outside
`0..1`. -/
def Game.handleCellClick (g : Game) (clickedCellIndex : Fin 9) : Outcome :=
  if !g.gameActive || decide (g.board.cells clickedCellIndex ≠ "") then
    { game := g, threw := false, scheduled := false }
  else
    match g.playerAt g.currentPlayerIndex with
    | none => { game := g, threw := true, scheduled := false }
    | some p =>
      let r := g.makeMove (some clickedCellIndex) p.name
      if r.threw then r
      else if r.game.gameActive && r.game.isPlayingWithBot
          && decide (r.game.currentPlayerIndex = 1) then
        { r with scheduled := true }
      else r

/-- The list `emptyCells` of `computerMove` (line 97): the indices of the
cells equal to `''`, in increasing order. -/
def Game.emptyCells (g : Game) : List (Fin 9) :=
  (List.finRange 9).filter fun index => decide (g.board.cells index = "")

/-- Method `Game.computerMove` (lines 93-100); `k` is the value of
`Math.floor(Math.random() * emptyCells.length)`, and `emptyCells[k]` is
`undefined` (here `none`) when `k` is not a position of the list. -/
def Game.computerMove (g : Game) (k : Nat) : Outcome :=
  if !g.gameActive || decide (g.currentPlayerIndex ≠ 1) then
    { game := g, threw := false, scheduled := false }
  else
    let randomIndex := g.emptyCells[k]?
    g.makeMove randomIndex g.players.2.name

/-- Method `Game.resetGame` (lines 138-151). The loop over `.cell` and the
popup write touch the DOM only. -/
def Game.resetGame (g : Game) : Game :=
  { g with board := g.board.reset, gameActive := true, currentPlayerIndex := 0 }

/-- Method `Game.resetScores` (lines 154-157):
`this.players.forEach(player => player.score = 0)`. -/
def Game.resetScores (g : Game) : Game :=
  { g with players := ({ g.players.1 with score := 0 }, { g.players.2 with score := 0 }) }

/-- Method `Game.toggleMode` (lines 160-163). -/
def Game.toggleMode (g : Game) : Game :=
  ({ g with isPlayingWithBot := !g.isPlayingWithBot }).resetGame

/-- An input that places a mark: a click on the cell of index `i`, or a firing
of the scheduled computer move with random draw `k`. -/
inductive Move where
  | click (i : Fin 9)
  | computer (k : Nat)

/-- The engine call a move stands for. -/
def Game.play (g : Game) : Move → Outcome
  | .click i => g.handleCellClick i
  | .computer k => g.computerMove k

/-- The cell a move is aimed at: the clicked cell, or `emptyCells[k]`. -/
def Game.target (g : Game) : Move → Option (Fin 9)
  | .click i => some i
  | .computer k => g.emptyCells[k]?

/-- A move is accepted when it passes the guard of its method and has a cell
to fill: a click while the game is active on an empty cell; a computer move
while the game is active on turn index 1, with `k` a position of `emptyCells`
(which it is as soon as there is an empty cell). -/
def Game.Accepts (g : Game) : Move → Prop
  | .click i => g.gameActive = true ∧ g.board.cells i = ""
  | .computer k =>
    g.gameActive = true ∧ g.currentPlayerIndex = 1 ∧ k < g.emptyCells.length

/-- Every move of the list is accepted in the state the earlier ones lead to
(no reset in between). -/
def Game.AcceptsAll : Game → List Move → Prop
  | _, [] => True
  | g, m :: ms => g.Accepts m ∧ (g.play m).game.AcceptsAll ms

/-- The symbols placed by a list of moves: for each move, what its target cell
holds right after it. -/
def Game.placed : Game → List Move → List (Option String)
  | _, [] => []
  | g, m :: ms =>
    (g.target m).map (g.play m).game.board.cells :: (g.play m).game.placed ms

/-- The number of empty cells whose index is below `j`. -/
def Game.emptyBefore (g : Game) (j : Fin 9) : Nat :=
  (Finset.univ.filter fun i : Fin 9 => i < j ∧ g.board.cells i = "").card

/-- The number of empty cells of the board. -/
def Game.emptyCount (g : Game) : Nat :=
  (Finset.univ.filter fun i : Fin 9 => g.board.cells i = "").card

/-- The state after a list of clicks, in order. -/
def Game.clicks (g : Game) (l : List (Fin 9)) : Game :=
  l.foldl (fun st i => (st.handleCellClick i).game) g

/-- The state after a list of moves, in order. -/
def Game.plays (g : Game) (ms : List Move) : Game :=
  ms.foldl (fun st m => (st.play m).game) g

/-- The number of cells of the board that hold `s`. -/
def Board.count (b : Board) (s : String) : Nat :=
  (Finset.univ.filter fun i : Fin 9 => b.cells i = s).card

/-- What can happen to the engine: the five entry points the page binds
(lines 177-185) or schedules (line 70). -/
inductive Input where
  | click (i : Fin 9)
  | computer (k : Nat)
  | resetGame
  | resetScores
  | toggleMode

/-- The state an input leaves behind (after a throw: the state at the throw). -/
def Game.step (g : Game) : Input → Game
  | .click i => (g.handleCellClick i).game
  | .computer k => (g.computerMove k).game
  | .resetGame => g.resetGame
  | .resetScores => g.resetScores
  | .toggleMode => g.toggleMode

/-- The state after a list of inputs, in order. -/
def Game.run (g : Game) (inputs : List Input) : Game :=
  inputs.foldl Game.step g

/-- A state is reachable when some list of inputs leads to it from the state
the script starts with. -/
def Game.Reachable (g : Game) : Prop :=
  ∃ inputs : List Input, Game.initial.run inputs = g

/-- The inputs that start a new round: `resetGame()` and `toggleMode()`. -/
def Input.startsRound : Input → Bool
  | .resetGame => true
  | .toggleMode => true
  | _ => false

/-- The number of inputs of the list at which a score goes up. -/
def Game.scoreIncrements : Game → List Input → Nat
  | _, [] => 0
  | g, a :: rest =>
    (if g.players.1.score < (g.step a).players.1.score
        ∨ g.players.2.score < (g.step a).players.2.score then 1 else 0)
      + (g.step a).scoreIncrements rest

/-- The page at run time: the engine state and the number of
`computerMove` callbacks that `setTimeout` holds and has not fired yet.
Nothing in the script cancels a callback. -/
structure Page where
  game : Game
  pending : Nat

/-- The page when the script has loaded. -/
def Page.initial : Page :=
  { game := Game.initial, pending := 0 }

/-- One event of the page. A click that runs `setTimeout` adds a pending
callback; `computer k` is the firing of a pending callback (with random draw
`k`) and cannot happen when none is pending; the three buttons leave the
pending callbacks alone. -/
def Page.step (p : Page) : Input → Page
  | .click i =>
    { game := (p.game.handleCellClick i).game
      pending := if (p.game.handleCellClick i).scheduled then p.pending + 1 else p.pending }
  | .computer k =>
    if p.pending = 0 then p
    else { game := (p.game.computerMove k).game, pending := p.pending - 1 }
  | .resetGame => { p with game := p.game.resetGame }
  | .resetScores => { p with game := p.game.resetScores }
  | .toggleMode => { p with game := p.game.toggleMode }

/-- The page after a list of events, in order. -/
def Page.run (p : Page) (inputs : List Input) : Page :=
  inputs.foldl Page.step p

/-- The invariant of the reachable states: the players are X and O, the turn
index is 0 or 1, an active game has an empty cell and no full line, X and O
never both have a full line, and the marks are counted as the turns go. -/
structure Game.Inv (g : Game) : Prop where
  nameX : g.players.1.name = "X"
  nameO : g.players.2.name = "O"
  turn : g.currentPlayerIndex < 2
  noLine : g.gameActive = true →
    g.board.checkWinner "X" = false ∧ g.board.checkWinner "O" = false
  notFull : g.gameActive = true → g.board.isFull = false
  notBoth : ¬ (g.board.checkWinner "X" = true ∧ g.board.checkWinner "O" = true)
  counts : g.board.count "X" = g.board.count "O"
    ∨ g.board.count "X" = g.board.count "O" + 1
  countsTurn : g.gameActive = true →
    (g.currentPlayerIndex = 0 → g.board.count "X" = g.board.count "O")
      ∧ (g.currentPlayerIndex = 1 → g.board.count "X" = g.board.count "O" + 1)

/-- A state no run of the script produces, used as a test input: the full
board of the drawn game `0,1,2,4,3,5,7,6,8`, with the game marked active and
the turn on index 1. -/
def Game.fullActiveExample : Game :=
  { Game.initial.clicks [0, 1, 2, 4, 3, 5, 7, 6, 8] with
    gameActive := true, currentPlayerIndex := 1 }

/-- A test input at the limit of the counter: the board after the clicks
`0,4,1,5` (X on 0 and 1, O on 4 and 5, X to move), with the score of X at
`2 ^ 53`, the value at which `score++` stops. -/
def Game.scoreLimitExample : Game :=
  { Game.initial.clicks [0, 4, 1, 5] with
    players := ({ name := "X", score := 2 ^ 53 }, { name := "O", score := 0 }) }

/-- A test input at the limit of the counter with one empty cell left: the
board after the clicks `0,3,5,4,6,7,1,8` (cell 2 empty, X to move and to
complete the row `0,1,2`), with the score of X at `2 ^ 53`. -/
def Game.scoreLimitLastCellExample : Game :=
  { Game.initial.clicks [0, 3, 5, 4, 6, 7, 1, 8] with
    players := ({ name := "X", score := 2 ^ 53 }, { name := "O", score := 0 }) }

/-! ## Theorems -/

theorem numberIncrement_of_lt (n : Nat) (h : n < 2 ^ 53) : numberIncrement n = n + 1 := by
  unfold numberIncrement
  rw [if_pos h]

theorem Board.cellAt_of_lt (b : Board) (a : Nat) (h : a < 9) :
    b.cellAt a = some (b.cells ⟨a, h⟩) := by
  simp [Board.cellAt, h]

/-- C1: `checkWinner(s)` is true exactly when some row `(3r, 3r+1, 3r+2)`, some
column `(c, c+3, c+6)` or one of the diagonals `(0,4,8)`, `(2,4,6)` of the
row-major grid has its three cells equal to `s`; equivalently, exactly when
one of the stored winning triples, of which there are 8, is fully occupied by
`s`. -/
theorem Board.checkWinner_iff_line (b : Board) (s : String) :
    (b.checkWinner s = true ↔
      ((∃ r, r < 3 ∧ b.cellAt (3 * r) = some s ∧ b.cellAt (3 * r + 1) = some s
          ∧ b.cellAt (3 * r + 2) = some s)
        ∨ (∃ c, c < 3 ∧ b.cellAt c = some s ∧ b.cellAt (c + 3) = some s
          ∧ b.cellAt (c + 6) = some s)
        ∨ (b.cellAt 0 = some s ∧ b.cellAt 4 = some s ∧ b.cellAt 8 = some s)
        ∨ (b.cellAt 2 = some s ∧ b.cellAt 4 = some s ∧ b.cellAt 6 = some s)))
    ∧ (b.checkWinner s = true ↔
        ∃ t ∈ Board.winningConditions,
          b.cellAt t.1 = some s ∧ b.cellAt t.2.1 = some s ∧ b.cellAt t.2.2 = some s)
    ∧ Board.winningConditions.length = 8 := by
  refine ⟨?_, ?_, rfl⟩
  · constructor
    · intro h
      simp only [Board.checkWinner, Board.winningConditions, List.any_cons, List.any_nil,
        Bool.or_false, Bool.or_eq_true, Bool.and_eq_true, decide_eq_true_eq] at h
      rcases h with h | h | h | h | h | h | h | h
      · exact Or.inl ⟨0, by decide, h.1.1, h.1.2, h.2⟩
      · exact Or.inl ⟨1, by decide, h.1.1, h.1.2, h.2⟩
      · exact Or.inl ⟨2, by decide, h.1.1, h.1.2, h.2⟩
      · exact Or.inr (Or.inl ⟨0, by decide, h.1.1, h.1.2, h.2⟩)
      · exact Or.inr (Or.inl ⟨1, by decide, h.1.1, h.1.2, h.2⟩)
      · exact Or.inr (Or.inl ⟨2, by decide, h.1.1, h.1.2, h.2⟩)
      · exact Or.inr (Or.inr (Or.inl ⟨h.1.1, h.1.2, h.2⟩))
      · exact Or.inr (Or.inr (Or.inr ⟨h.1.1, h.1.2, h.2⟩))
    · intro h
      simp only [Board.checkWinner, Board.winningConditions, List.any_cons, List.any_nil,
        Bool.or_false, Bool.or_eq_true, Bool.and_eq_true, decide_eq_true_eq]
      rcases h with ⟨r, hr, h1, h2, h3⟩ | ⟨c, hc, h1, h2, h3⟩ | ⟨h1, h2, h3⟩ | ⟨h1, h2, h3⟩
      · interval_cases r
        · exact Or.inl ⟨⟨h1, h2⟩, h3⟩
        · exact Or.inr (Or.inl ⟨⟨h1, h2⟩, h3⟩)
        · exact Or.inr (Or.inr (Or.inl ⟨⟨h1, h2⟩, h3⟩))
      · interval_cases c
        · exact Or.inr (Or.inr (Or.inr (Or.inl ⟨⟨h1, h2⟩, h3⟩)))
        · exact Or.inr (Or.inr (Or.inr (Or.inr (Or.inl ⟨⟨h1, h2⟩, h3⟩))))
        · exact Or.inr (Or.inr (Or.inr (Or.inr (Or.inr (Or.inl ⟨⟨h1, h2⟩, h3⟩)))))
      · exact Or.inr (Or.inr (Or.inr (Or.inr (Or.inr (Or.inr (Or.inl ⟨⟨h1, h2⟩, h3⟩))))))
      · exact Or.inr (Or.inr (Or.inr (Or.inr (Or.inr (Or.inr (Or.inr ⟨⟨h1, h2⟩, h3⟩))))))
  · simp only [Board.checkWinner, List.any_eq_true, Bool.and_eq_true, decide_eq_true_eq]
    constructor
    · rintro ⟨⟨a, b', c⟩, hm, h⟩
      exact ⟨(a, b', c), hm, h.1.1, h.1.2, h.2⟩
    · rintro ⟨⟨a, b', c⟩, hm, h1, h2, h3⟩
      exact ⟨(a, b', c), hm, ⟨h1, h2⟩, h3⟩

/-! ### What `makeMove` does at a cell of the grid -/

theorem Game.makeMove_some_flags (g : Game) (j : Fin 9) (s : String) :
    (g.makeMove (some j) s).threw = false ∧ (g.makeMove (some j) s).scheduled = false := by
  unfold Game.makeMove
  simp only [cellElementExists, Option.isSome_some, if_true]
  split
  · exact ⟨rfl, rfl⟩
  · split
    · exact ⟨rfl, rfl⟩
    · exact ⟨rfl, rfl⟩

theorem Game.endGame_frame (g : Game) (d : Bool) (w : Option String) :
    (g.endGame d w).board = g.board
      ∧ (g.endGame d w).gameActive = false
      ∧ (g.endGame d w).currentPlayerIndex = g.currentPlayerIndex
      ∧ (g.endGame d w).isPlayingWithBot = g.isPlayingWithBot
      ∧ (g.endGame d w).players.1.name = g.players.1.name
      ∧ (g.endGame d w).players.2.name = g.players.2.name := by
  unfold Game.endGame
  simp only
  split
  · exact ⟨rfl, rfl, rfl, rfl, rfl, rfl⟩
  · split
    · exact ⟨rfl, rfl, rfl, rfl, rfl, rfl⟩
    · exact ⟨rfl, rfl, rfl, rfl, rfl, rfl⟩

theorem Game.makeMove_some_win (g : Game) (j : Fin 9) (s : String)
    (h : (g.board.write (some j) s).checkWinner s = true) :
    (g.makeMove (some j) s).game
      = ({ g with board := g.board.write (some j) s } : Game).endGame false (some s) := by
  unfold Game.makeMove
  simp [cellElementExists, h]

theorem Game.makeMove_some_draw (g : Game) (j : Fin 9) (s : String)
    (h : (g.board.write (some j) s).checkWinner s = false)
    (hf : (g.board.write (some j) s).isFull = true) :
    (g.makeMove (some j) s).game
      = ({ g with board := g.board.write (some j) s } : Game).endGame true none := by
  unfold Game.makeMove
  simp [cellElementExists, h, hf]

theorem Game.makeMove_some_next (g : Game) (j : Fin 9) (s : String)
    (h : (g.board.write (some j) s).checkWinner s = false)
    (hf : (g.board.write (some j) s).isFull = false) :
    (g.makeMove (some j) s).game
      = ({ g with board := g.board.write (some j) s } : Game).switchPlayer := by
  unfold Game.makeMove
  simp [cellElementExists, h, hf]

theorem Game.makeMove_some_frame (g : Game) (j : Fin 9) (s : String) :
    (g.makeMove (some j) s).game.board = g.board.write (some j) s
      ∧ (g.makeMove (some j) s).game.isPlayingWithBot = g.isPlayingWithBot
      ∧ (g.makeMove (some j) s).game.players.1.name = g.players.1.name
      ∧ (g.makeMove (some j) s).game.players.2.name = g.players.2.name := by
  cases h : (g.board.write (some j) s).checkWinner s
  · cases hf : (g.board.write (some j) s).isFull
    · rw [Game.makeMove_some_next g j s h hf]
      exact ⟨rfl, rfl, rfl, rfl⟩
    · rw [Game.makeMove_some_draw g j s h hf]
      have e := Game.endGame_frame ({ g with board := g.board.write (some j) s } : Game) true none
      exact ⟨e.1, e.2.2.2.1, e.2.2.2.2.1, e.2.2.2.2.2⟩
  · rw [Game.makeMove_some_win g j s h]
    have e := Game.endGame_frame ({ g with board := g.board.write (some j) s } : Game) false
      (some s)
    exact ⟨e.1, e.2.2.2.1, e.2.2.2.2.1, e.2.2.2.2.2⟩

theorem Game.mem_emptyCells (g : Game) (j : Fin 9) :
    j ∈ g.emptyCells ↔ g.board.cells j = "" := by
  simp [Game.emptyCells, List.mem_finRange]

/-- An accepted move, on a turn index that is 0 or 1, is a `makeMove` of the
current player's symbol at an empty cell, and throws nothing. -/
theorem Game.play_accepted (g : Game) (m : Move) (hacc : g.Accepts m)
    (hp : g.currentPlayerIndex < 2) :
    ∃ j p, g.target m = some j ∧ g.board.cells j = ""
      ∧ g.playerAt g.currentPlayerIndex = some p
      ∧ (g.play m).game = (g.makeMove (some j) p.name).game
      ∧ (g.play m).threw = false := by
  cases m with
  | click i =>
    obtain ⟨ha, he⟩ := hacc
    have hpl : ∃ p, g.playerAt g.currentPlayerIndex = some p := by
      have h01 : g.currentPlayerIndex = 0 ∨ g.currentPlayerIndex = 1 := by omega
      rcases h01 with h | h
      · rw [h]; exact ⟨_, rfl⟩
      · rw [h]; exact ⟨_, rfl⟩
    obtain ⟨p, hpp⟩ := hpl
    have hcond : (!g.gameActive || decide (g.board.cells i ≠ "")) = false := by
      simp [ha, he]
    have hfl := (g.makeMove_some_flags i p.name).1
    refine ⟨i, p, rfl, he, hpp, ?_, ?_⟩
    · simp only [Game.play, Game.handleCellClick, hcond, hpp, hfl, Bool.false_eq_true,
        if_false]
      split <;> rfl
    · simp only [Game.play, Game.handleCellClick, hcond, hpp, hfl, Bool.false_eq_true,
        if_false]
      split
      · rfl
      · exact hfl
  | computer k =>
    obtain ⟨ha, h1, hk⟩ := hacc
    have hget : g.emptyCells[k]? = some g.emptyCells[k] := List.getElem?_eq_getElem hk
    have hcond : (!g.gameActive || decide (g.currentPlayerIndex ≠ 1)) = false := by
      simp [ha, h1]
    have hrun : g.computerMove k = g.makeMove (some g.emptyCells[k]) g.players.2.name := by
      simp only [Game.computerMove, hcond, Bool.false_eq_true, if_false, hget]
    refine ⟨g.emptyCells[k], g.players.2, hget, ?_, ?_, ?_, ?_⟩
    · exact (g.mem_emptyCells _).1 (List.getElem_mem _)
    · rw [h1]; rfl
    · simp only [Game.play, hrun]
    · simp only [Game.play, hrun]
      exact (g.makeMove_some_flags _ _).1

theorem Board.isFull_iff (b : Board) : b.isFull = true ↔ ∀ i, b.cells i ≠ "" := by
  simp [Board.isFull, List.all_eq_true, List.mem_finRange]

theorem Game.Accepts.active {g : Game} {m : Move} (h : g.Accepts m) :
    g.gameActive = true := by
  cases m with
  | click i => exact h.1
  | computer k => exact h.1

theorem Game.playerAt_name (g : Game) (p : Player) (hX : g.players.1.name = "X")
    (hO : g.players.2.name = "O") (hp : g.playerAt g.currentPlayerIndex = some p) :
    p.name = if g.currentPlayerIndex = 0 then "X" else "O" := by
  unfold Game.playerAt at hp
  split at hp
  · rename_i h0
    simp only [Option.some.injEq] at hp
    rw [h0, ← hp, hX]; rfl
  · rename_i h1
    simp only [Option.some.injEq] at hp
    rw [h1, ← hp, hO]; rfl
  · exact absurd hp (by simp)

/-- C2, the claim as stated fails: with the score of X at `2 ^ 53`, an accepted
click by X that completes the row `0,1,2` ends the game and leaves the score
of X at `2 ^ 53`, not one more. -/
theorem Game.win_at_score_limit_keeps_score :
    Game.scoreLimitExample.Accepts (.click 2)
      ∧ Game.scoreLimitExample.currentPlayerIndex = 0
      ∧ (Game.scoreLimitExample.play (.click 2)).game.board.checkWinner "X" = true
      ∧ (Game.scoreLimitExample.play (.click 2)).game.gameActive = false
      ∧ (Game.scoreLimitExample.play (.click 2)).game.players.1.score
          = Game.scoreLimitExample.players.1.score
      ∧ ¬ ((Game.scoreLimitExample.play (.click 2)).game.players.1.score
          = Game.scoreLimitExample.players.1.score + 1) :=
  ⟨⟨by decide, by decide⟩, by decide, by decide, by decide, by decide, by decide⟩

/-- C2, amended: an accepted move (a click on an empty cell, or a computer move
on turn index 1 with a cell to fill) in an active game, with players X and O,
after which the mover's symbol holds a full winning triple, ends the game,
applies `score++` to the mover's score, which is exactly one more than before
whenever the score was below `2 ^ 53`, and leaves the other score as it
was. -/
theorem Game.win_ends_game_and_scores (g : Game) (m : Move)
    (hX : g.players.1.name = "X") (hO : g.players.2.name = "O") (hacc : g.Accepts m) :
    (g.currentPlayerIndex = 0 → (g.play m).game.board.checkWinner "X" = true →
        (g.play m).game.gameActive = false
          ∧ (g.play m).game.players.1.score = numberIncrement g.players.1.score
          ∧ (g.players.1.score < 2 ^ 53 →
              (g.play m).game.players.1.score = g.players.1.score + 1)
          ∧ (g.play m).game.players.2.score = g.players.2.score
          ∧ (g.play m).threw = false)
      ∧ (g.currentPlayerIndex = 1 → (g.play m).game.board.checkWinner "O" = true →
        (g.play m).game.gameActive = false
          ∧ (g.play m).game.players.2.score = numberIncrement g.players.2.score
          ∧ (g.players.2.score < 2 ^ 53 →
              (g.play m).game.players.2.score = g.players.2.score + 1)
          ∧ (g.play m).game.players.1.score = g.players.1.score
          ∧ (g.play m).threw = false) := by
  constructor
  · intro h0 hw
    obtain ⟨j, p, -, -, hpp, hgame, hthrew⟩ := g.play_accepted m hacc (by omega)
    have hn := g.playerAt_name p hX hO hpp
    rw [if_pos h0] at hn
    rw [hgame, hn] at hw
    rw [(g.makeMove_some_frame j "X").1] at hw
    rw [hgame, hn, Game.makeMove_some_win g j "X" hw]
    have hs : (({ g with board := g.board.write (some j) "X" } : Game).endGame false
        (some "X")).players.1.score = numberIncrement g.players.1.score := by
      simp [Game.endGame, hX, Player.incrementScore]
    refine ⟨(Game.endGame_frame _ _ _).2.1, hs, ?_, ?_, hthrew⟩
    · intro hlt
      rw [hs, numberIncrement_of_lt _ hlt]
    · simp [Game.endGame, hX]
  · intro h1 hw
    obtain ⟨j, p, -, -, hpp, hgame, hthrew⟩ := g.play_accepted m hacc (by omega)
    have hn := g.playerAt_name p hX hO hpp
    rw [if_neg (by omega)] at hn
    rw [hgame, hn] at hw
    rw [(g.makeMove_some_frame j "O").1] at hw
    rw [hgame, hn, Game.makeMove_some_win g j "O" hw]
    have hs : (({ g with board := g.board.write (some j) "O" } : Game).endGame false
        (some "O")).players.2.score = numberIncrement g.players.2.score := by
      simp [Game.endGame, hX, Player.incrementScore]
    refine ⟨(Game.endGame_frame _ _ _).2.1, hs, ?_, ?_, hthrew⟩
    · intro hlt
      rw [hs, numberIncrement_of_lt _ hlt]
    · simp [Game.endGame, hX]

theorem Game.win_ends_game_and_scores_witness :
    (Game.initial.clicks [0, 4, 1, 5]).Accepts (.click 2)
      ∧ (Game.initial.clicks [0, 4, 1, 5, 2]).board.checkWinner "X" = true
      ∧ (Game.initial.clicks [0, 4, 1, 5, 2]).gameActive = false
      ∧ (Game.initial.clicks [0, 4, 1, 5, 2]).players.1.score = 1
      ∧ (Game.initial.clicks [0, 4, 1, 5, 2]).players.2.score = 0 :=
  have h := (Game.win_ends_game_and_scores (Game.initial.clicks [0, 4, 1, 5]) (.click 2)
    rfl rfl ⟨by decide, by decide⟩).1 (by decide) (by decide)
  ⟨⟨by decide, by decide⟩, by decide, h.1, h.2.2.1 (by decide), h.2.2.2.1⟩

/-- C3: an accepted move in an active game, with players X and O, after which
the board is full and neither X nor O holds a full winning triple, ends the
game (a draw) and leaves both scores as they were. -/
theorem Game.full_board_without_line_is_draw (g : Game) (m : Move)
    (hX : g.players.1.name = "X") (hO : g.players.2.name = "O") (hacc : g.Accepts m)
    (hfull : (g.play m).game.board.isFull = true)
    (hx : (g.play m).game.board.checkWinner "X" = false)
    (ho : (g.play m).game.board.checkWinner "O" = false) :
    (g.play m).game.gameActive = false
      ∧ (g.play m).game.players.1.score = g.players.1.score
      ∧ (g.play m).game.players.2.score = g.players.2.score
      ∧ (g.play m).threw = false := by
  have hp : g.currentPlayerIndex < 2 := by
    cases m with
    | computer k => have := hacc.2.1; omega
    | click i =>
      by_contra hlt
      have hnone : g.playerAt g.currentPlayerIndex = none := by
        unfold Game.playerAt
        split
        · rename_i h0; omega
        · rename_i h1; omega
        · rfl
      have hcond : (!g.gameActive || decide (g.board.cells i ≠ "")) = false := by
        simp [hacc.1, hacc.2]
      have hsame : (g.play (.click i)).game = g := by
        simp only [Game.play, Game.handleCellClick, hcond, hnone, Bool.false_eq_true,
          if_false]
      rw [hsame] at hfull
      exact (g.board.isFull_iff.1 hfull i) hacc.2
  obtain ⟨j, p, -, -, hpp, hgame, hthrew⟩ := g.play_accepted m hacc hp
  have hn := g.playerAt_name p hX hO hpp
  have hb := (g.makeMove_some_frame j p.name).1
  rw [hgame, hb] at hfull hx ho
  have hw : (g.board.write (some j) p.name).checkWinner p.name = false := by
    by_cases h0 : g.currentPlayerIndex = 0
    · rw [if_pos h0] at hn
      rw [hn] at hx ⊢
      exact hx
    · rw [if_neg h0] at hn
      rw [hn] at ho ⊢
      exact ho
  rw [hgame, Game.makeMove_some_draw g j p.name hw hfull]
  exact ⟨rfl, rfl, rfl, hthrew⟩

theorem Game.full_board_without_line_is_draw_witness :
    (Game.initial.clicks [0, 1, 2, 4, 3, 5, 7, 6]).Accepts (.click 8)
      ∧ (Game.initial.clicks [0, 1, 2, 4, 3, 5, 7, 6, 8]).board.isFull = true
      ∧ (Game.initial.clicks [0, 1, 2, 4, 3, 5, 7, 6, 8]).gameActive = false
      ∧ (Game.initial.clicks [0, 1, 2, 4, 3, 5, 7, 6, 8]).players.1.score = 0
      ∧ (Game.initial.clicks [0, 1, 2, 4, 3, 5, 7, 6, 8]).players.2.score = 0 :=
  have h := Game.full_board_without_line_is_draw (Game.initial.clicks [0, 1, 2, 4, 3, 5, 7, 6])
    (.click 8) rfl rfl ⟨by decide, by decide⟩ (by decide) (by decide) (by decide)
  ⟨⟨by decide, by decide⟩, by decide, h.1, h.2.1, h.2.2.1⟩

/-! ### Turn order -/

theorem Game.play_turn (g : Game) (m : Move) (hacc : g.Accepts m)
    (hp : g.currentPlayerIndex < 2) (hact : (g.play m).game.gameActive = true) :
    (g.play m).game.currentPlayerIndex = 1 - g.currentPlayerIndex := by
  obtain ⟨j, p, -, -, -, hgame, -⟩ := g.play_accepted m hacc hp
  rw [hgame] at hact ⊢
  cases hw : (g.board.write (some j) p.name).checkWinner p.name
  · cases hf : (g.board.write (some j) p.name).isFull
    · rw [Game.makeMove_some_next g j p.name hw hf]
      show (if g.currentPlayerIndex = 0 then 1 else 0) = 1 - g.currentPlayerIndex
      split <;> omega
    · rw [Game.makeMove_some_draw g j p.name hw hf, (Game.endGame_frame _ _ _).2.1] at hact
      exact absurd hact (by decide)
  · rw [Game.makeMove_some_win g j p.name hw, (Game.endGame_frame _ _ _).2.1] at hact
    exact absurd hact (by decide)

theorem Game.play_names (g : Game) (m : Move) (hacc : g.Accepts m)
    (hp : g.currentPlayerIndex < 2) :
    (g.play m).game.players.1.name = g.players.1.name
      ∧ (g.play m).game.players.2.name = g.players.2.name := by
  obtain ⟨j, p, -, -, -, hgame, -⟩ := g.play_accepted m hacc hp
  rw [hgame]
  exact (g.makeMove_some_frame j p.name).2.2

theorem Game.play_placed (g : Game) (m : Move) (hX : g.players.1.name = "X")
    (hO : g.players.2.name = "O") (hacc : g.Accepts m) (hp : g.currentPlayerIndex < 2) :
    (g.target m).map (g.play m).game.board.cells
      = some (if g.currentPlayerIndex = 0 then "X" else "O") := by
  obtain ⟨j, p, htarget, -, hpp, hgame, -⟩ := g.play_accepted m hacc hp
  rw [htarget, hgame, (g.makeMove_some_frame j p.name).1, ← g.playerAt_name p hX hO hpp]
  simp [Board.write]

theorem Game.placed_getElem (ms : List Move) :
    ∀ g : Game, g.players.1.name = "X" → g.players.2.name = "O" →
      g.currentPlayerIndex < 2 → g.AcceptsAll ms → ∀ n, n < ms.length →
        (g.placed ms)[n]?
          = some (some (if (g.currentPlayerIndex + n) % 2 = 0 then "X" else "O")) := by
  induction ms with
  | nil => intro g _ _ _ _ n hn; exact absurd hn (by simp)
  | cons m ms ih =>
    intro g hX hO hp hall n hn
    obtain ⟨hacc, hrest⟩ := hall
    cases n with
    | zero =>
      simp only [Game.placed, List.getElem?_cons_zero, g.play_placed m hX hO hacc hp,
        Nat.add_zero]
      have h01 : g.currentPlayerIndex = 0 ∨ g.currentPlayerIndex = 1 := by omega
      rcases h01 with h | h <;> simp [h]
    | succ n =>
      have hn2 : n < ms.length := by simpa using hn
      have hact : (g.play m).game.gameActive = true := by
        cases ms with
        | nil => exact absurd hn2 (by simp)
        | cons m2 ms2 => exact hrest.1.active
      have hturn := g.play_turn m hacc hp hact
      have hnames := g.play_names m hacc hp
      have key := ih (g.play m).game (hnames.1.trans hX) (hnames.2.trans hO) (by omega)
        hrest n hn2
      simp only [Game.placed, List.getElem?_cons_succ, key, hturn]
      have h01 : g.currentPlayerIndex = 0 ∨ g.currentPlayerIndex = 1 := by omega
      have hpar : (1 - g.currentPlayerIndex + n) % 2 = (g.currentPlayerIndex + (n + 1)) % 2 := by
        rcases h01 with h | h <;> rw [h] <;> omega
      rw [hpar]

theorem Game.placed_length (ms : List Move) : ∀ g : Game, (g.placed ms).length = ms.length := by
  induction ms with
  | nil => intro g; rfl
  | cons m ms ih => intro g; simp [Game.placed, ih]

theorem Game.placed_chain (g : Game) (ms : List Move) (hX : g.players.1.name = "X")
    (hO : g.players.2.name = "O") (hp : g.currentPlayerIndex < 2) (hall : g.AcceptsAll ms) :
    List.Chain' (fun a b => a ≠ b) (g.placed ms) := by
  rw [List.chain'_iff_get]
  intro i hi
  have hlen := Game.placed_length ms g
  have h1 : i < ms.length := by omega
  have h2 : i + 1 < ms.length := by omega
  have e1 := Game.placed_getElem ms g hX hO hp hall i h1
  have e2 := Game.placed_getElem ms g hX hO hp hall (i + 1) h2
  rw [List.getElem?_eq_getElem (by omega)] at e1 e2
  simp only [Option.some.injEq] at e1 e2
  simp only [List.get_eq_getElem, e1, e2]
  have h01 : g.currentPlayerIndex = 0 ∨ g.currentPlayerIndex = 1 := by omega
  have hpar : (g.currentPlayerIndex + i) % 2 = 0 ∨ (g.currentPlayerIndex + i) % 2 = 1 := by
    omega
  rcases hpar with h | h
  · have h' : (g.currentPlayerIndex + (i + 1)) % 2 = 1 := by omega
    simp [h, h']
  · have h' : (g.currentPlayerIndex + (i + 1)) % 2 = 0 := by omega
    simp [h, h']

/-- C5: in an active game with players X and O and turn index `p` in `0..1`,
an accepted move that does not end the game leaves the turn index `1 - p`;
hence the symbols placed by any run of accepted moves (no reset in between)
differ from one move to the next, and after `resetGame()` the run places
X, O, X, O, … starting with X. -/
theorem Game.turns_alternate (g : Game) (hX : g.players.1.name = "X")
    (hO : g.players.2.name = "O") (hp : g.currentPlayerIndex < 2) :
    (∀ m, g.Accepts m → (g.play m).game.gameActive = true →
        (g.play m).game.currentPlayerIndex = 1 - g.currentPlayerIndex)
      ∧ (∀ ms, g.AcceptsAll ms → List.Chain' (fun a b => a ≠ b) (g.placed ms))
      ∧ (∀ ms, g.resetGame.AcceptsAll ms → ∀ n, n < ms.length →
          (g.resetGame.placed ms)[n]? = some (some (if n % 2 = 0 then "X" else "O"))) := by
  refine ⟨fun m hacc hact => g.play_turn m hacc hp hact,
    fun ms hall => g.placed_chain ms hX hO hp hall, ?_⟩
  intro ms hall n hn
  have key := Game.placed_getElem ms g.resetGame hX hO Nat.zero_lt_two hall n hn
  simpa [Game.resetGame] using key

theorem Game.turns_alternate_witness :
    Game.initial.currentPlayerIndex < 2
      ∧ (Game.initial.play (.click 0)).game.currentPlayerIndex = 1
      ∧ Game.initial.placed [.click 0, .computer 3, .click 8]
          = [some "X", some "O", some "X"] :=
  ⟨by decide,
    (Game.turns_alternate Game.initial rfl rfl (by decide)).1 (.click 0) ⟨rfl, rfl⟩ (by decide),
    by decide⟩

/-! ### The computer's choice -/

theorem Game.emptyCells_length (g : Game) : g.emptyCells.length = g.emptyCount := by
  rfl

theorem length_filter_lt_getElem (l : List (Fin 9)) (hl : l.Pairwise (fun a b => a < b)) :
    ∀ k (hk : k < l.length), (l.filter fun i => decide (i < l[k])).length = k := by
  induction l with
  | nil => intro k hk; exact absurd hk (by simp)
  | cons a t ih =>
    intro k hk
    rw [List.pairwise_cons] at hl
    cases k with
    | zero =>
      have hnil : (a :: t).filter (fun i => decide (i < a)) = [] := by
        rw [List.filter_eq_nil_iff]
        intro b hb
        rcases List.mem_cons.1 hb with h | h
        · simp [h]
        · have := hl.1 b h
          simp only [decide_eq_true_eq, not_lt]
          exact le_of_lt this
      simp only [List.getElem_cons_zero, hnil, List.length_nil]
    | succ k =>
      have hk2 : k < t.length := by simpa using hk
      have hlt : a < t[k] := hl.1 _ (List.getElem_mem _)
      simp only [List.getElem_cons_succ]
      rw [List.filter_cons_of_pos (by simpa using hlt), List.length_cons, ih hl.2 k hk2]

theorem Game.emptyBefore_getElem (g : Game) (k : Nat) (hk : k < g.emptyCells.length) :
    g.emptyBefore g.emptyCells[k] = k := by
  have hsorted : g.emptyCells.Pairwise (fun a b => a < b) :=
    (List.pairwise_lt_finRange 9).sublist (List.filter_sublist _)
  have h := length_filter_lt_getElem g.emptyCells hsorted k hk
  have e : g.emptyBefore g.emptyCells[k]
      = (g.emptyCells.filter fun i => decide (i < g.emptyCells[k])).length := by
    unfold Game.emptyCells
    rw [List.filter_filter]
    unfold Game.emptyBefore
    simp only [Finset.card, Finset.filter, Fin.univ_def, Multiset.filter_coe, Multiset.coe_card]
    congr 1
    apply List.filter_congr
    intro x _
    simp [Game.emptyCells]
  rw [e, h]

/-- C9: in an active game on turn index 1, with second player O, for every
draw `k` below the number of empty cells, `computerMove()` changes exactly one
cell: the `k`-th empty cell in index order (the empty cell with `k` empty cells
before it) goes from empty to `'O'`, and every other cell keeps its value;
nothing is thrown. -/
theorem Game.computerMove_fills_kth_empty (g : Game) (k : Nat)
    (hO : g.players.2.name = "O") (ha : g.gameActive = true)
    (h1 : g.currentPlayerIndex = 1) (hk : k < g.emptyCount) :
    ∃ j : Fin 9, g.board.cells j = "" ∧ g.emptyBefore j = k
      ∧ (g.computerMove k).game.board.cells j = "O"
      ∧ (∀ i, i ≠ j → (g.computerMove k).game.board.cells i = g.board.cells i)
      ∧ (g.computerMove k).threw = false := by
  have hk2 : k < g.emptyCells.length := by rw [g.emptyCells_length]; exact hk
  have hget : g.emptyCells[k]? = some g.emptyCells[k] := List.getElem?_eq_getElem hk2
  have hcond : (!g.gameActive || decide (g.currentPlayerIndex ≠ 1)) = false := by
    simp [ha, h1]
  have hrun : g.computerMove k = g.makeMove (some g.emptyCells[k]) "O" := by
    simp only [Game.computerMove, hcond, Bool.false_eq_true, if_false, hget, hO]
  refine ⟨g.emptyCells[k], (g.mem_emptyCells _).1 (List.getElem_mem _),
    g.emptyBefore_getElem k hk2, ?_, ?_, ?_⟩
  · rw [hrun, (g.makeMove_some_frame _ _).1]
    simp [Board.write]
  · intro i hi
    rw [hrun, (g.makeMove_some_frame _ _).1]
    simp [Board.write, Function.update_noteq hi]
  · rw [hrun]
    exact (g.makeMove_some_flags _ _).1

theorem Game.computerMove_fills_kth_empty_witness :
    1 < (Game.initial.clicks [0]).emptyCount
      ∧ ∃ j : Fin 9, (Game.initial.clicks [0]).board.cells j = ""
        ∧ (Game.initial.clicks [0]).emptyBefore j = 1
        ∧ ((Game.initial.clicks [0]).computerMove 1).game.board.cells j = "O"
        ∧ (∀ i, i ≠ j → ((Game.initial.clicks [0]).computerMove 1).game.board.cells i
            = (Game.initial.clicks [0]).board.cells i)
        ∧ ((Game.initial.clicks [0]).computerMove 1).threw = false :=
  ⟨by decide,
    Game.computerMove_fills_kth_empty (Game.initial.clicks [0]) 1 rfl rfl rfl (by decide)⟩

/-- C4: a click on an index `0..8` while the game is ended, or on a cell that
already holds a symbol, returns with the state unchanged (cells, turn index,
`gameActive`, `isPlayingWithBot`, both scores), throws nothing and schedules
no computer move. -/
theorem Game.handleCellClick_ignored (g : Game) (i : Fin 9)
    (h : g.gameActive = false ∨ g.board.cells i ≠ "") :
    g.handleCellClick i = { game := g, threw := false, scheduled := false } := by
  unfold Game.handleCellClick
  rcases h with h | h
  · simp [h]
  · simp [h]

theorem Game.handleCellClick_ignored_witness :
    (Game.initial.handleCellClick 0).game.board.cells 0 ≠ ""
      ∧ (Game.initial.handleCellClick 0).game.handleCellClick 0
        = { game := (Game.initial.handleCellClick 0).game, threw := false, scheduled := false } :=
  ⟨by decide,
    Game.handleCellClick_ignored (Game.initial.handleCellClick 0).game 0 (Or.inr (by decide))⟩

/-- C6: from any state, `resetGame()` leaves all nine cells empty, the turn
index 0 and `gameActive` true, and keeps both players (so both scores) and
`isPlayingWithBot` as they were. -/
theorem Game.resetGame_spec (g : Game) :
    (∀ i, g.resetGame.board.cells i = "")
      ∧ g.resetGame.currentPlayerIndex = 0
      ∧ g.resetGame.gameActive = true
      ∧ g.resetGame.players.1.score = g.players.1.score
      ∧ g.resetGame.players.2.score = g.players.2.score
      ∧ g.resetGame.players = g.players
      ∧ g.resetGame.isPlayingWithBot = g.isPlayingWithBot :=
  ⟨fun _ => rfl, rfl, rfl, rfl, rfl, rfl, rfl⟩

/-- C7: from any state, `resetScores()` leaves both scores at 0 and keeps the
nine cells, the turn index, `gameActive` and `isPlayingWithBot` (and the
players' names) as they were. -/
theorem Game.resetScores_spec (g : Game) :
    g.resetScores.players.1.score = 0
      ∧ g.resetScores.players.2.score = 0
      ∧ g.resetScores.board = g.board
      ∧ g.resetScores.currentPlayerIndex = g.currentPlayerIndex
      ∧ g.resetScores.gameActive = g.gameActive
      ∧ g.resetScores.isPlayingWithBot = g.isPlayingWithBot
      ∧ g.resetScores.players.1.name = g.players.1.name
      ∧ g.resetScores.players.2.name = g.players.2.name :=
  ⟨rfl, rfl, rfl, rfl, rfl, rfl, rfl, rfl⟩

/-- C8: from any state, `toggleMode()` negates `isPlayingWithBot`, leaves all
nine cells empty, the turn index 0 and `gameActive` true, and keeps both
players (so both scores); two calls in a row restore the flag. -/
theorem Game.toggleMode_spec (g : Game) :
    g.toggleMode.isPlayingWithBot = !g.isPlayingWithBot
      ∧ (∀ i, g.toggleMode.board.cells i = "")
      ∧ g.toggleMode.currentPlayerIndex = 0
      ∧ g.toggleMode.gameActive = true
      ∧ g.toggleMode.players.1.score = g.players.1.score
      ∧ g.toggleMode.players.2.score = g.players.2.score
      ∧ g.toggleMode.players = g.players
      ∧ g.toggleMode.toggleMode.isPlayingWithBot = g.isPlayingWithBot := by
  refine ⟨rfl, fun _ => rfl, rfl, rfl, rfl, rfl, rfl, ?_⟩
  simp [Game.toggleMode, Game.resetGame]

/-- C10: when the game is ended or the turn index is not 1, `computerMove()`
returns with the state unchanged, throws nothing and schedules nothing,
whatever the random draw; in particular this is so right after `resetGame()`
and right after `toggleMode()`, from any state. -/
theorem Game.computerMove_ignored (g : Game) (k : Nat) :
    ((g.gameActive = false ∨ g.currentPlayerIndex ≠ 1) →
        g.computerMove k = { game := g, threw := false, scheduled := false })
      ∧ g.resetGame.computerMove k
          = { game := g.resetGame, threw := false, scheduled := false }
      ∧ g.toggleMode.computerMove k
          = { game := g.toggleMode, threw := false, scheduled := false } := by
  refine ⟨?_, ?_, ?_⟩
  · intro h
    unfold Game.computerMove
    rcases h with h | h
    · simp [h]
    · simp [h]
  · simp [Game.computerMove, Game.resetGame]
  · simp [Game.computerMove, Game.toggleMode, Game.resetGame]

theorem Game.computerMove_ignored_witness :
    Game.initial.currentPlayerIndex ≠ 1
      ∧ Game.initial.computerMove 0
        = { game := Game.initial, threw := false, scheduled := false } :=
  ⟨by decide, (Game.computerMove_ignored Game.initial 0).1 (Or.inr (by decide))⟩

/-! ### The three ways an accepted move can go -/

theorem Game.play_cases (g : Game) (m : Move) (hX : g.players.1.name = "X")
    (hO : g.players.2.name = "O") (hacc : g.Accepts m) (hp : g.currentPlayerIndex < 2) :
    ∃ j : Fin 9, g.target m = some j ∧ g.board.cells j = ""
      ∧ (g.play m).threw = false
      ∧ (g.play m).game.board
          = g.board.write (some j) (if g.currentPlayerIndex = 0 then "X" else "O")
      ∧ (g.play m).game.isPlayingWithBot = g.isPlayingWithBot
      ∧ (g.play m).game.players.1.name = "X"
      ∧ (g.play m).game.players.2.name = "O"
      ∧ (((g.play m).game.board.checkWinner (if g.currentPlayerIndex = 0 then "X" else "O")
              = true
            ∧ (g.play m).game.gameActive = false
            ∧ (g.play m).game.currentPlayerIndex = g.currentPlayerIndex
            ∧ (g.currentPlayerIndex = 0 →
                (g.play m).game.players.1.score = numberIncrement g.players.1.score
                  ∧ (g.play m).game.players.2.score = g.players.2.score)
            ∧ (g.currentPlayerIndex = 1 →
                (g.play m).game.players.2.score = numberIncrement g.players.2.score
                  ∧ (g.play m).game.players.1.score = g.players.1.score))
        ∨ ((g.play m).game.board.checkWinner (if g.currentPlayerIndex = 0 then "X" else "O")
              = false
            ∧ (g.play m).game.board.isFull = true
            ∧ (g.play m).game.gameActive = false
            ∧ (g.play m).game.currentPlayerIndex = g.currentPlayerIndex
            ∧ (g.play m).game.players = g.players)
        ∨ ((g.play m).game.board.checkWinner (if g.currentPlayerIndex = 0 then "X" else "O")
              = false
            ∧ (g.play m).game.board.isFull = false
            ∧ (g.play m).game.gameActive = true
            ∧ (g.play m).game.currentPlayerIndex = 1 - g.currentPlayerIndex
            ∧ (g.play m).game.players = g.players)) := by
  obtain ⟨j, p, htarget, hempty, hpp, hgame, hthrew⟩ := g.play_accepted m hacc hp
  have hn := g.playerAt_name p hX hO hpp
  rw [hn] at hgame
  have hfr := g.makeMove_some_frame j (if g.currentPlayerIndex = 0 then "X" else "O")
  have hact := hacc.active
  refine ⟨j, htarget, hempty, hthrew, by rw [hgame]; exact hfr.1, by rw [hgame]; exact hfr.2.1,
    by rw [hgame]; exact hfr.2.2.1.trans hX, by rw [hgame]; exact hfr.2.2.2.trans hO, ?_⟩
  rw [hgame, hfr.1]
  cases hw : (g.board.write (some j) (if g.currentPlayerIndex = 0 then "X" else "O")).checkWinner
      (if g.currentPlayerIndex = 0 then "X" else "O")
  · cases hf : (g.board.write (some j) (if g.currentPlayerIndex = 0 then "X" else "O")).isFull
    · refine Or.inr (Or.inr ⟨rfl, rfl, ?_, ?_, ?_⟩)
      · rw [Game.makeMove_some_next g j _ hw hf]; exact hact
      · rw [Game.makeMove_some_next g j _ hw hf]
        show (if g.currentPlayerIndex = 0 then 1 else 0) = 1 - g.currentPlayerIndex
        split <;> omega
      · rw [Game.makeMove_some_next g j _ hw hf]; rfl
    · refine Or.inr (Or.inl ⟨rfl, rfl, ?_, ?_, ?_⟩)
      · rw [Game.makeMove_some_draw g j _ hw hf]; rfl
      · rw [Game.makeMove_some_draw g j _ hw hf]; rfl
      · rw [Game.makeMove_some_draw g j _ hw hf]; rfl
  · refine Or.inl ⟨rfl, ?_, ?_, ?_, ?_⟩
    · rw [Game.makeMove_some_win g j _ hw]; exact (Game.endGame_frame _ _ _).2.1
    · rw [Game.makeMove_some_win g j _ hw]; exact (Game.endGame_frame _ _ _).2.2.1
    · intro h0
      rw [Game.makeMove_some_win g j _ hw]
      simp [Game.endGame, hX, h0, Player.incrementScore]
    · intro h1
      rw [Game.makeMove_some_win g j _ hw]
      simp [Game.endGame, hX, h1, Player.incrementScore]

theorem Game.play_rejected (g : Game) (m : Move) (hrej : ¬ g.Accepts m) :
    (g.play m).game = g := by
  cases m with
  | click i =>
    have hcond : (!g.gameActive || decide (g.board.cells i ≠ "")) = true := by
      by_cases ha : g.gameActive = true
      · have he : g.board.cells i ≠ "" := fun he => hrej ⟨ha, he⟩
        simp [he]
      · simp [ha]
    simp only [Game.play, Game.handleCellClick, hcond, if_true]
  | computer k =>
    by_cases hcond : (!g.gameActive || decide (g.currentPlayerIndex ≠ 1)) = true
    · simp only [Game.play, Game.computerMove, hcond, if_true]
    · have ha : g.gameActive = true := by
        cases h : g.gameActive
        · simp [h] at hcond
        · rfl
      have h1 : g.currentPlayerIndex = 1 := by
        by_contra h
        simp [h] at hcond
      have hk : ¬ k < g.emptyCells.length := fun hk => hrej ⟨ha, h1, hk⟩
      have hget : g.emptyCells[k]? = none := List.getElem?_eq_none (by omega)
      simp only [Game.play, Game.computerMove, hcond, if_false, hget]
      rfl

/-! ### Writing one cell: lines and counts -/

theorem Board.cellAt_write_other (b : Board) (j : Fin 9) (s t : String) (a : Nat)
    (hst : s ≠ t) (h : (b.write (some j) s).cellAt a = some t) : b.cellAt a = some t := by
  unfold Board.cellAt at h ⊢
  by_cases ha : a < 9
  · simp only [ha, dif_pos, Option.some.injEq, Board.write] at h ⊢
    by_cases hj : (⟨a, ha⟩ : Fin 9) = j
    · rw [hj, Function.update_same] at h
      exact absurd h hst
    · rwa [Function.update_noteq hj] at h
  · simp [ha] at h

theorem Board.checkWinner_write_other (b : Board) (j : Fin 9) (s t : String) (hst : s ≠ t)
    (h : (b.write (some j) s).checkWinner t = true) : b.checkWinner t = true := by
  simp only [Board.checkWinner, List.any_eq_true, Bool.and_eq_true, decide_eq_true_eq] at h ⊢
  obtain ⟨⟨a, b', c⟩, hm, ⟨h1, h2⟩, h3⟩ := h
  exact ⟨(a, b', c), hm, ⟨b.cellAt_write_other j s t a hst h1,
    b.cellAt_write_other j s t b' hst h2⟩, b.cellAt_write_other j s t c hst h3⟩

theorem Board.count_write_general (b : Board) (j : Fin 9) (s t : String) :
    (b.write (some j) s).count t + (if b.cells j = t then 1 else 0)
      = b.count t + (if s = t then 1 else 0) := by
  unfold Board.count Board.write
  simp only [Finset.card_filter]
  rw [← Finset.add_sum_erase Finset.univ _ (Finset.mem_univ j),
    ← Finset.add_sum_erase Finset.univ (fun i => if b.cells i = t then 1 else 0)
      (Finset.mem_univ j)]
  have hrest : ∑ x in Finset.univ.erase j, (if Function.update b.cells j s x = t then 1 else 0)
      = ∑ x in Finset.univ.erase j, (if b.cells x = t then 1 else 0) :=
    Finset.sum_congr rfl fun x hx => by
      rw [Function.update_noteq (Finset.ne_of_mem_erase hx)]
  rw [hrest]
  simp only [Function.update_same]
  omega

theorem Board.count_write (b : Board) (j : Fin 9) (s t : String) (he : b.cells j = "")
    (ht : t ≠ "") : (b.write (some j) s).count t = b.count t + (if s = t then 1 else 0) := by
  have h := b.count_write_general j s t
  rw [he, if_neg (fun h' => ht h'.symm)] at h
  exact h

theorem Board.count_empty_write (b : Board) (j : Fin 9) (s : String) (he : b.cells j = "")
    (hs : s ≠ "") : (b.write (some j) s).count "" + 1 = b.count "" := by
  have h := b.count_write_general j s ""
  rw [he, if_pos rfl, if_neg hs] at h
  exact h

theorem Board.cells_write_same (b : Board) (j : Fin 9) (s : String) :
    (b.write (some j) s).cells j = s := by
  simp [Board.write]

theorem Board.cells_write_other (b : Board) (j i : Fin 9) (s : String) (h : i ≠ j) :
    (b.write (some j) s).cells i = b.cells i := by
  simp [Board.write, Function.update_noteq h]

theorem Board.isFull_false_iff (b : Board) : b.isFull = false ↔ ∃ i, b.cells i = "" := by
  rw [← Bool.not_eq_true, b.isFull_iff]
  push_neg
  rfl

theorem Board.count_empty_eq_zero_iff (b : Board) : b.count "" = 0 ↔ b.isFull = true := by
  rw [b.isFull_iff, Board.count, Finset.card_eq_zero, Finset.filter_eq_empty_iff]
  simp

/-! ### The invariant of the reachable states -/

theorem Game.Inv.of_ended (g : Game) (hX : g.players.1.name = "X")
    (hO : g.players.2.name = "O") (hp : g.currentPlayerIndex < 2)
    (hga : g.gameActive = false)
    (hnb : ¬ (g.board.checkWinner "X" = true ∧ g.board.checkWinner "O" = true))
    (hc : g.board.count "X" = g.board.count "O"
      ∨ g.board.count "X" = g.board.count "O" + 1) : g.Inv :=
  { nameX := hX
    nameO := hO
    turn := hp
    noLine := fun ha => by rw [hga] at ha; exact absurd ha (by decide)
    notFull := fun ha => by rw [hga] at ha; exact absurd ha (by decide)
    notBoth := hnb
    counts := hc
    countsTurn := fun ha => by rw [hga] at ha; exact absurd ha (by decide) }

theorem Game.Inv.of_active (g : Game) (hX : g.players.1.name = "X")
    (hO : g.players.2.name = "O") (hp : g.currentPlayerIndex < 2)
    (hx : g.board.checkWinner "X" = false) (ho : g.board.checkWinner "O" = false)
    (hnf : g.board.isFull = false)
    (hc0 : g.currentPlayerIndex = 0 → g.board.count "X" = g.board.count "O")
    (hc1 : g.currentPlayerIndex = 1 → g.board.count "X" = g.board.count "O" + 1) : g.Inv :=
  { nameX := hX
    nameO := hO
    turn := hp
    noLine := fun _ => ⟨hx, ho⟩
    notFull := fun _ => hnf
    notBoth := fun hb => by rw [hx] at hb; exact absurd hb.1 (by decide)
    counts := by
      have h01 : g.currentPlayerIndex = 0 ∨ g.currentPlayerIndex = 1 := by omega
      rcases h01 with h | h
      · exact Or.inl (hc0 h)
      · exact Or.inr (hc1 h)
    countsTurn := fun _ => ⟨hc0, hc1⟩ }

theorem Game.Inv.of_fresh (g : Game) (hX : g.players.1.name = "X")
    (hO : g.players.2.name = "O") (hb : g.board = Board.new)
    (h0 : g.currentPlayerIndex = 0) : g.Inv := by
  have hx : Board.new.checkWinner "X" = false := by decide
  have ho : Board.new.checkWinner "O" = false := by decide
  have hf : Board.new.isFull = false := by decide
  have hcx : Board.new.count "X" = 0 := by decide
  have hco : Board.new.count "O" = 0 := by decide
  apply Game.Inv.of_active g hX hO (by omega)
  · rw [hb]; exact hx
  · rw [hb]; exact ho
  · rw [hb]; exact hf
  · intro _; rw [hb, hcx, hco]
  · intro h1; omega

theorem Game.Inv.play (g : Game) (m : Move) (h : g.Inv) : (g.play m).game.Inv := by
  by_cases hacc : g.Accepts m
  swap
  · rw [g.play_rejected m hacc]; exact h
  obtain ⟨j, -, hempty, -, hboard, -, hnX, hnO, hcases⟩ :=
    g.play_cases m h.nameX h.nameO hacc h.turn
  have hact := hacc.active
  obtain ⟨hx0, ho0⟩ := h.noLine hact
  have hct := h.countsTurn hact
  have h01 : g.currentPlayerIndex = 0 ∨ g.currentPlayerIndex = 1 := by
    have := h.turn
    omega
  rcases h01 with h0 | h1
  · simp only [h0, ↓reduceIte] at hboard hcases
    have hO2 : (g.play m).game.board.checkWinner "O" = false := by
      rw [hboard]
      cases hc : (g.board.write (some j) "X").checkWinner "O"
      · rfl
      · have hold := g.board.checkWinner_write_other j "X" "O" (by decide) hc
        rw [ho0] at hold
        exact absurd hold (by decide)
    have hcX : (g.play m).game.board.count "X" = g.board.count "X" + 1 := by
      rw [hboard, g.board.count_write j "X" "X" hempty (by decide), if_pos rfl]
    have hcO : (g.play m).game.board.count "O" = g.board.count "O" := by
      rw [hboard, g.board.count_write j "X" "O" hempty (by decide), if_neg (by decide)]
      rfl
    have hc := hct.1 h0
    rcases hcases with ⟨-, hga, hcpi, -, -⟩ | ⟨-, -, hga, hcpi, -⟩ | ⟨hw, hf, -, hcpi, -⟩
    · exact Game.Inv.of_ended _ hnX hnO (by omega) hga
        (fun hb => by rw [hO2] at hb; exact absurd hb.2 (by decide)) (Or.inr (by omega))
    · exact Game.Inv.of_ended _ hnX hnO (by omega) hga
        (fun hb => by rw [hO2] at hb; exact absurd hb.2 (by decide)) (Or.inr (by omega))
    · exact Game.Inv.of_active _ hnX hnO (by omega) hw hO2 hf (fun h' => by omega)
        (fun _ => by omega)
  · simp only [h1, one_ne_zero, ↓reduceIte] at hboard hcases
    have hX2 : (g.play m).game.board.checkWinner "X" = false := by
      rw [hboard]
      cases hc : (g.board.write (some j) "O").checkWinner "X"
      · rfl
      · have hold := g.board.checkWinner_write_other j "O" "X" (by decide) hc
        rw [hx0] at hold
        exact absurd hold (by decide)
    have hcO : (g.play m).game.board.count "O" = g.board.count "O" + 1 := by
      rw [hboard, g.board.count_write j "O" "O" hempty (by decide), if_pos rfl]
    have hcX : (g.play m).game.board.count "X" = g.board.count "X" := by
      rw [hboard, g.board.count_write j "O" "X" hempty (by decide), if_neg (by decide)]
      rfl
    have hc := hct.2 h1
    rcases hcases with ⟨-, hga, hcpi, -, -⟩ | ⟨-, -, hga, hcpi, -⟩ | ⟨hw, hf, -, hcpi, -⟩
    · exact Game.Inv.of_ended _ hnX hnO (by omega) hga
        (fun hb => by rw [hX2] at hb; exact absurd hb.1 (by decide)) (Or.inl (by omega))
    · exact Game.Inv.of_ended _ hnX hnO (by omega) hga
        (fun hb => by rw [hX2] at hb; exact absurd hb.1 (by decide)) (Or.inl (by omega))
    · exact Game.Inv.of_active _ hnX hnO (by omega) hX2 hw hf (fun _ => by omega)
        (fun h' => by omega)

theorem Game.Inv.step (g : Game) (a : Input) (h : g.Inv) : (g.step a).Inv := by
  cases a with
  | click i => exact h.play g (.click i)
  | computer k => exact h.play g (.computer k)
  | resetGame => exact Game.Inv.of_fresh _ h.nameX h.nameO rfl rfl
  | toggleMode => exact Game.Inv.of_fresh _ h.nameX h.nameO rfl rfl
  | resetScores =>
    exact { nameX := h.nameX, nameO := h.nameO, turn := h.turn, noLine := h.noLine,
            notFull := h.notFull, notBoth := h.notBoth, counts := h.counts,
            countsTurn := h.countsTurn }

theorem Game.Inv.run (inputs : List Input) : ∀ g : Game, g.Inv → (g.run inputs).Inv := by
  induction inputs with
  | nil => intro g h; exact h
  | cons a rest ih => intro g h; exact ih (g.step a) (h.step g a)

theorem Game.Reachable.inv {g : Game} (h : g.Reachable) : g.Inv := by
  obtain ⟨inputs, rfl⟩ := h
  exact Game.Inv.run inputs Game.initial (Game.Inv.of_fresh _ rfl rfl rfl rfl)

/-! ### Ended games and scores -/

theorem Game.makeMove_scores (g : Game) (index : Option (Fin 9)) (s : String) :
    (g.makeMove index s).game.gameActive = false
      ∨ (g.makeMove index s).game.players = g.players := by
  cases index with
  | none => exact Or.inr rfl
  | some j =>
    cases hw : (g.board.write (some j) s).checkWinner s
    · cases hf : (g.board.write (some j) s).isFull
      · rw [Game.makeMove_some_next g j s hw hf]; exact Or.inr rfl
      · rw [Game.makeMove_some_draw g j s hw hf]; exact Or.inr rfl
    · rw [Game.makeMove_some_win g j s hw]
      exact Or.inl (Game.endGame_frame _ _ _).2.1

theorem Game.handleCellClick_scores (g : Game) (i : Fin 9) :
    (g.handleCellClick i).game.gameActive = false
      ∨ (g.handleCellClick i).game.players = g.players := by
  unfold Game.handleCellClick
  split
  · exact Or.inr rfl
  · split
    · exact Or.inr rfl
    · rename_i p _
      simp only
      split
      · exact g.makeMove_scores _ _
      · split
        · exact g.makeMove_scores _ _
        · exact g.makeMove_scores _ _

theorem Game.computerMove_scores (g : Game) (k : Nat) :
    (g.computerMove k).game.gameActive = false
      ∨ (g.computerMove k).game.players = g.players := by
  unfold Game.computerMove
  split
  · exact Or.inr rfl
  · exact g.makeMove_scores _ _

theorem Game.handleCellClick_ended (g : Game) (i : Fin 9) (h : g.gameActive = false) :
    g.handleCellClick i = { game := g, threw := false, scheduled := false } := by
  unfold Game.handleCellClick
  simp [h]

theorem Game.computerMove_guarded (g : Game) (k : Nat)
    (h : g.gameActive = false ∨ g.currentPlayerIndex ≠ 1) :
    g.computerMove k = { game := g, threw := false, scheduled := false } := by
  unfold Game.computerMove
  rcases h with h | h
  · simp [h]
  · simp [h]

theorem Game.step_ended (g : Game) (a : Input) (ha : a.startsRound = false)
    (h : g.gameActive = false) :
    (g.step a).gameActive = false
      ∧ ¬ (g.players.1.score < (g.step a).players.1.score
        ∨ g.players.2.score < (g.step a).players.2.score) := by
  cases a with
  | click i =>
    simp only [Game.step, g.handleCellClick_ended i h]
    exact ⟨h, by omega⟩
  | computer k =>
    simp only [Game.step, g.computerMove_guarded k (Or.inl h)]
    exact ⟨h, by omega⟩
  | resetScores =>
    refine ⟨h, ?_⟩
    show ¬ (g.players.1.score < 0 ∨ g.players.2.score < 0)
    omega
  | resetGame => exact absurd ha (by decide)
  | toggleMode => exact absurd ha (by decide)

theorem Game.step_scores (g : Game) (a : Input) (ha : a.startsRound = false)
    (hinc : g.players.1.score < (g.step a).players.1.score
      ∨ g.players.2.score < (g.step a).players.2.score) :
    (g.step a).gameActive = false := by
  cases a with
  | click i =>
    rcases g.handleCellClick_scores i with h | h
    · exact h
    · simp only [Game.step, h] at hinc
      omega
  | computer k =>
    rcases g.computerMove_scores k with h | h
    · exact h
    · simp only [Game.step, h] at hinc
      omega
  | resetScores =>
    have hinc2 : g.players.1.score < 0 ∨ g.players.2.score < 0 := hinc
    omega
  | resetGame => exact absurd ha (by decide)
  | toggleMode => exact absurd ha (by decide)

theorem Game.scoreIncrements_ended (inputs : List Input) :
    ∀ g : Game, g.gameActive = false → (∀ a ∈ inputs, a.startsRound = false) →
      g.scoreIncrements inputs = 0 := by
  induction inputs with
  | nil => intro g _ _; rfl
  | cons a rest ih =>
    intro g h hall
    have ha := hall a (List.mem_cons_self _ _)
    have hs := g.step_ended a ha h
    simp only [Game.scoreIncrements, if_neg hs.2, Nat.zero_add]
    exact ih (g.step a) hs.1 fun b hb => hall b (List.mem_cons_of_mem _ hb)

theorem Game.scoreIncrements_le_one (inputs : List Input) :
    ∀ g : Game, (∀ a ∈ inputs, a.startsRound = false) → g.scoreIncrements inputs ≤ 1 := by
  induction inputs with
  | nil => intro g _; exact Nat.zero_le _
  | cons a rest ih =>
    intro g hall
    have ha := hall a (List.mem_cons_self _ _)
    have hrest : ∀ b ∈ rest, b.startsRound = false :=
      fun b hb => hall b (List.mem_cons_of_mem _ hb)
    by_cases hinc : g.players.1.score < (g.step a).players.1.score
        ∨ g.players.2.score < (g.step a).players.2.score
    · have hend := g.step_scores a ha hinc
      simp only [Game.scoreIncrements, if_pos hinc,
        Game.scoreIncrements_ended rest (g.step a) hend hrest]
      exact Nat.le_refl _
    · simp only [Game.scoreIncrements, if_neg hinc, Nat.zero_add]
      exact ih (g.step a) hrest

/-- C11: in an ended game every click on `0..8` and every `computerMove()`
returns with the state unchanged, and `resetScores()` keeps the game ended and
the board as it is, so that every input other than `resetGame()` and
`toggleMode()` leaves the game ended; hence in any run of inputs without
`resetGame()` or `toggleMode()`, from any state, a score goes up at most
once. -/
theorem Game.ended_until_new_round (g : Game) (h : g.gameActive = false) :
    (∀ i, g.handleCellClick i = { game := g, threw := false, scheduled := false })
      ∧ (∀ k, g.computerMove k = { game := g, threw := false, scheduled := false })
      ∧ g.resetScores.gameActive = false
      ∧ g.resetScores.board = g.board
      ∧ (∀ a : Input, a.startsRound = false → (g.step a).gameActive = false)
      ∧ (∀ (s : Game) (inputs : List Input), (∀ a ∈ inputs, a.startsRound = false) →
          s.scoreIncrements inputs ≤ 1) :=
  ⟨fun i => g.handleCellClick_ended i h, fun k => g.computerMove_guarded k (Or.inl h), h, rfl,
    fun a ha => (g.step_ended a ha h).1,
    fun s inputs hall => Game.scoreIncrements_le_one inputs s hall⟩

theorem Game.ended_until_new_round_witness :
    (Game.initial.clicks [0, 4, 1, 5, 2]).gameActive = false
      ∧ (Game.initial.clicks [0, 4, 1, 5, 2]).handleCellClick 3
        = { game := Game.initial.clicks [0, 4, 1, 5, 2], threw := false, scheduled := false }
      ∧ Game.initial.scoreIncrements
          [.click 0, .click 4, .click 1, .click 5, .click 2, .click 3, .computer 0] = 1 :=
  ⟨by decide,
    (Game.ended_until_new_round (Game.initial.clicks [0, 4, 1, 5, 2]) (by decide)).1 3,
    by decide⟩

/-! ### Stale computer moves -/

theorem Page.pending_step_click (p : Page) (i : Fin 9) :
    p.pending ≤ (p.step (.click i)).pending := by
  simp only [Page.step]
  split <;> omega

theorem Page.pending_run_clicks (cs : List (Fin 9)) :
    ∀ p : Page, p.pending ≤ (p.run (cs.map Input.click)).pending := by
  induction cs with
  | nil => intro p; exact Nat.le_refl _
  | cons i rest ih =>
    intro p
    exact Nat.le_trans (p.pending_step_click i) (ih (p.step (.click i)))

theorem Page.step_startsRound (p : Page) (a : Input) (ha : a.startsRound = true) :
    (p.step a).pending = p.pending ∧ (p.step a).game.currentPlayerIndex = 0 := by
  cases a with
  | resetGame => exact ⟨rfl, rfl⟩
  | toggleMode => exact ⟨rfl, rfl⟩
  | click i => exact absurd ha (by simp [Input.startsRound])
  | computer k => exact absurd ha (by simp [Input.startsRound])
  | resetScores => exact absurd ha (by decide)

theorem Page.step_computer_guarded (q : Page) (k : Nat) (hpend : 0 < q.pending)
    (h : q.game.gameActive = false ∨ q.game.currentPlayerIndex ≠ 1) :
    q.step (.computer k) = { game := q.game, pending := q.pending - 1 } := by
  have hne : ¬ q.pending = 0 := by omega
  simp only [Page.step, if_neg hne, q.game.computerMove_guarded k h]

/-- C12: the run `handleCellClick(0)`, `toggleMode()`, `handleCellClick(4)` from
the loaded page. The first click leaves one `computerMove` call pending;
`toggleMode()` switches to two-player mode and cancels nothing; the click on 4
is accepted, schedules nothing and puts the turn on index 1. When the stale
call then fires it passes the guard of line 94, which tests `gameActive` and
the turn index but not `isPlayingWithBot`, and writes `'O'` into the empty
cell 0: the computer moves although no computer is playing, where the claim
(and the comment of line 94) says the stale call does nothing. -/
theorem Page.stale_computerMove_plays_in_two_player_mode :
    (Page.initial.run [.click 0]).pending = 1
      ∧ (Page.initial.run [.click 0, .toggleMode]).game.isPlayingWithBot = false
      ∧ (Page.initial.run [.click 0, .toggleMode]).game.Accepts (Move.click 4)
      ∧ (Page.initial.run [.click 0, .toggleMode, .click 4]).pending = 1
      ∧ (Page.initial.run [.click 0, .toggleMode, .click 4]).game.isPlayingWithBot = false
      ∧ (Page.initial.run [.click 0, .toggleMode, .click 4]).game.currentPlayerIndex = 1
      ∧ (Page.initial.run [.click 0, .toggleMode, .click 4]).game.board.cells 0 = ""
      ∧ (Page.initial.run [.click 0, .toggleMode, .click 4, .computer 0]).game.board.cells 0
          = "O"
      ∧ (Page.initial.run [.click 0, .toggleMode, .click 4, .computer 0]).pending = 0 :=
  ⟨by decide, by decide, ⟨by decide, by decide⟩, by decide, by decide, by decide, by decide,
    by decide, by decide⟩

/-- The same run with `resetGame()` in place of `toggleMode()`: the game stays
in vs-computer mode, the click on 4 schedules a second call, and the stale
call, the first of the two to fire, makes the computer's move. -/
theorem Page.stale_computerMove_after_resetGame :
    (Page.initial.run [.click 0, .resetGame]).game.Accepts (Move.click 4)
      ∧ (Page.initial.run [.click 0, .resetGame, .click 4]).pending = 2
      ∧ (Page.initial.run [.click 0, .resetGame, .click 4]).game.isPlayingWithBot = true
      ∧ (Page.initial.run [.click 0, .resetGame, .click 4]).game.board.cells 0 = ""
      ∧ (Page.initial.run [.click 0, .resetGame, .click 4, .computer 0]).game.board.cells 0
          = "O" :=
  ⟨⟨by decide, by decide⟩, by decide, by decide, by decide, by decide⟩

/-- What the guard of `computerMove` does absorb: when `resetGame()` or
`toggleMode()` is called while a `computerMove` call is pending, the call is
still pending after any clicks that follow, and when it fires it changes no
state provided the game is then ended or the turn index is then not 1; this
is so in particular when it fires right after the reset or toggle. -/
theorem Page.stale_computerMove_absorbed (p : Page) (a : Input) (cs : List (Fin 9)) (k : Nat)
    (hpend : 0 < p.pending) (ha : a.startsRound = true) :
    0 < ((p.step a).run (cs.map Input.click)).pending
      ∧ ((((p.step a).run (cs.map Input.click)).game.gameActive = false
            ∨ ((p.step a).run (cs.map Input.click)).game.currentPlayerIndex ≠ 1) →
          ((p.step a).run (cs.map Input.click)).step (.computer k)
            = { game := ((p.step a).run (cs.map Input.click)).game
                pending := ((p.step a).run (cs.map Input.click)).pending - 1 })
      ∧ (p.step a).step (.computer k)
          = { game := (p.step a).game, pending := p.pending - 1 } := by
  have hs := p.step_startsRound a ha
  have hmono := Page.pending_run_clicks cs (p.step a)
  have hpos : 0 < ((p.step a).run (cs.map Input.click)).pending := by omega
  refine ⟨hpos, fun h => Page.step_computer_guarded _ k hpos h, ?_⟩
  have h0 := Page.step_computer_guarded (p.step a) k (by omega) (Or.inr (by omega))
  rw [h0, hs.1]

theorem Page.stale_computerMove_absorbed_witness :
    0 < (Page.initial.run [.click 0]).pending
      ∧ ((Page.initial.run [.click 0]).step .resetGame).step (.computer 0)
        = { game := ((Page.initial.run [.click 0]).step .resetGame).game, pending := 0 } :=
  ⟨by decide,
    (Page.stale_computerMove_absorbed (Page.initial.run [.click 0]) .resetGame [] 0
      (by decide) rfl).2.2⟩

/-! ### The computer move on a full board -/

theorem Game.emptyCells_eq_nil (g : Game) (hfull : ∀ i, g.board.cells i ≠ "") :
    g.emptyCells = [] := by
  unfold Game.emptyCells
  rw [List.filter_eq_nil_iff]
  intro i _
  simp [hfull i]

/-- C13, the claim as stated fails: on the full board of a drawn game, marked
active with the turn on index 1, `computerMove()` throws. -/
theorem Game.computerMove_full_board_example :
    Game.fullActiveExample.gameActive = true
      ∧ Game.fullActiveExample.currentPlayerIndex = 1
      ∧ (∀ i, Game.fullActiveExample.board.cells i ≠ "")
      ∧ (Game.fullActiveExample.computerMove 0).threw = true :=
  ⟨by decide, by decide, by decide, by decide⟩

/-- C13, amended: in a state with `gameActive` true, turn index 1 and all nine
cells occupied, `computerMove()` calls `makeMove(undefined, …)` and a
`TypeError` is thrown; the state is left unchanged (no cell written, game not
ended, turn not switched, scores unchanged), and no such state is reachable. -/
theorem Game.computerMove_full_board_throws (g : Game) (k : Nat)
    (ha : g.gameActive = true) (h1 : g.currentPlayerIndex = 1)
    (hfull : ∀ i, g.board.cells i ≠ "") :
    (g.computerMove k).threw = true
      ∧ (g.computerMove k).game = g
      ∧ (g.computerMove k).scheduled = false
      ∧ ¬ g.Reachable := by
  have hcond : (!g.gameActive || decide (g.currentPlayerIndex ≠ 1)) = false := by
    simp [ha, h1]
  have hget : g.emptyCells[k]? = none := by
    rw [g.emptyCells_eq_nil hfull]
    rfl
  have hrun : g.computerMove k = g.makeMove none g.players.2.name := by
    simp only [Game.computerMove, hcond, Bool.false_eq_true, if_false, hget]
  refine ⟨by rw [hrun]; rfl, by rw [hrun]; rfl, by rw [hrun]; rfl, ?_⟩
  intro hr
  have hnf := hr.inv.notFull ha
  rw [(g.board.isFull_iff).2 hfull] at hnf
  exact absurd hnf (by decide)

theorem Game.computerMove_full_board_throws_witness :
    (Game.fullActiveExample.computerMove 0).threw = true
      ∧ (Game.fullActiveExample.computerMove 0).game = Game.fullActiveExample
      ∧ (Game.fullActiveExample.computerMove 0).scheduled = false
      ∧ ¬ Game.fullActiveExample.Reachable :=
  Game.computerMove_full_board_throws Game.fullActiveExample 0 (by decide) (by decide)
    (by decide)

/-! ### What a click writes -/

/-- C14: in an active game with players X and O and turn index in `0..1`, a
click on an empty cell `i` writes the symbol of the current player (X on
index 0, O on index 1) into cell `i` and leaves the other eight cells and
`isPlayingWithBot` as they were; and no accepted move changes a cell that
already holds a symbol. -/
theorem Game.handleCellClick_writes_symbol (g : Game) (i : Fin 9)
    (hX : g.players.1.name = "X") (hO : g.players.2.name = "O")
    (hp : g.currentPlayerIndex < 2) (ha : g.gameActive = true)
    (he : g.board.cells i = "") :
    (g.handleCellClick i).game.board.cells i = (if g.currentPlayerIndex = 0 then "X" else "O")
      ∧ (∀ j, j ≠ i → (g.handleCellClick i).game.board.cells j = g.board.cells j)
      ∧ (g.handleCellClick i).game.isPlayingWithBot = g.isPlayingWithBot
      ∧ (g.handleCellClick i).threw = false
      ∧ (∀ m, g.Accepts m → ∀ j, g.board.cells j ≠ "" →
          (g.play m).game.board.cells j = g.board.cells j) := by
  obtain ⟨t, htarget, -, hthrew, hboard, hflag, -, -, -⟩ :=
    g.play_cases (.click i) hX hO ⟨ha, he⟩ hp
  have hti : t = i := by
    simp only [Game.target, Option.some.injEq] at htarget
    exact htarget.symm
  subst hti
  refine ⟨?_, ?_, hflag, hthrew, ?_⟩
  · show (g.play (.click t)).game.board.cells t = _
    rw [hboard, Board.cells_write_same]
  · intro j hj
    show (g.play (.click t)).game.board.cells j = _
    rw [hboard, Board.cells_write_other _ _ _ _ hj]
  · intro m hacc j hocc
    obtain ⟨u, -, hu, -, hboard2, -, -, -, -⟩ := g.play_cases m hX hO hacc hp
    have hju : j ≠ u := fun h => hocc (h ▸ hu)
    rw [hboard2, Board.cells_write_other _ _ _ _ hju]

theorem Game.handleCellClick_writes_symbol_witness :
    (Game.initial.clicks [0]).board.cells 4 = ""
      ∧ ((Game.initial.clicks [0]).handleCellClick 4).game.board.cells 4 = "O"
      ∧ ((Game.initial.clicks [0]).handleCellClick 4).game.board.cells 0 = "X" :=
  have h := Game.handleCellClick_writes_symbol (Game.initial.clicks [0]) 4 rfl rfl
    (by decide) (by decide) (by decide)
  ⟨by decide, h.1, by decide⟩

/-! ### Reachable states -/

theorem Game.play_other_no_line (g : Game) (m : Move) (h : g.Inv) (hacc : g.Accepts m) :
    (g.currentPlayerIndex = 0 → (g.play m).game.board.checkWinner "O" = false)
      ∧ (g.currentPlayerIndex = 1 → (g.play m).game.board.checkWinner "X" = false) := by
  obtain ⟨j, -, -, -, hboard, -, -, -, -⟩ := g.play_cases m h.nameX h.nameO hacc h.turn
  obtain ⟨hx0, ho0⟩ := h.noLine hacc.active
  constructor
  · intro h0
    simp only [h0, ↓reduceIte] at hboard
    rw [hboard]
    cases hc : (g.board.write (some j) "X").checkWinner "O"
    · rfl
    · have hold := g.board.checkWinner_write_other j "X" "O" (by decide) hc
      rw [ho0] at hold
      exact absurd hold (by decide)
  · intro h1
    simp only [h1, one_ne_zero, ↓reduceIte] at hboard
    rw [hboard]
    cases hc : (g.board.write (some j) "O").checkWinner "X"
    · rfl
    · have hold := g.board.checkWinner_write_other j "O" "X" (by decide) hc
      rw [hx0] at hold
      exact absurd hold (by decide)

/-- C15: in every state reachable from the initial state by clicks on `0..8`,
computer moves with any draw, `resetGame()`, `resetScores()` and
`toggleMode()`, an active game has an empty cell and neither
`checkWinner('X')` nor `checkWinner('O')` holds; hence `computerMove` never
meets an active full board: on turn index 1 its list of empty cells is not
empty and, for every draw inside the list, nothing is thrown. -/
theorem Game.active_reachable_not_over (g : Game) (hr : g.Reachable)
    (ha : g.gameActive = true) :
    (∃ i, g.board.cells i = "")
      ∧ g.board.checkWinner "X" = false
      ∧ g.board.checkWinner "O" = false
      ∧ g.board.isFull = false
      ∧ 0 < g.emptyCells.length
      ∧ (g.currentPlayerIndex = 1 → ∀ k, k < g.emptyCells.length →
          (g.computerMove k).threw = false) := by
  have hinv := hr.inv
  have hnf := hinv.notFull ha
  obtain ⟨i, hi⟩ := (g.board.isFull_false_iff).1 hnf
  refine ⟨⟨i, hi⟩, (hinv.noLine ha).1, (hinv.noLine ha).2, hnf,
    List.length_pos_of_mem ((g.mem_emptyCells i).2 hi), ?_⟩
  intro h1 k hk
  obtain ⟨_, -, -, hthrew, -⟩ :=
    g.play_cases (.computer k) hinv.nameX hinv.nameO ⟨ha, h1, hk⟩ hinv.turn
  exact hthrew

theorem Game.active_reachable_not_over_witness :
    (Game.initial.run [.click 0]).gameActive = true
      ∧ (Game.initial.run [.click 0]).board.isFull = false
      ∧ 0 < (Game.initial.run [.click 0]).emptyCells.length :=
  have h := Game.active_reachable_not_over (Game.initial.run [.click 0]) ⟨[.click 0], rfl⟩
    (by decide)
  ⟨by decide, h.2.2.2.1, h.2.2.2.2.1⟩

/-- C16: in every reachable state `checkWinner('X')` and `checkWinner('O')` are
not both true; and after an accepted move from a reachable state the symbol of
the player who did not move has no full line, so the check of the mover's
symbol alone misses no win and credits no wrong player. -/
theorem Game.never_both_win (g : Game) (hr : g.Reachable) :
    ¬ (g.board.checkWinner "X" = true ∧ g.board.checkWinner "O" = true)
      ∧ (∀ m, g.Accepts m →
          (g.currentPlayerIndex = 0 → (g.play m).game.board.checkWinner "O" = false)
            ∧ (g.currentPlayerIndex = 1 → (g.play m).game.board.checkWinner "X" = false)) :=
  ⟨hr.inv.notBoth, fun m hacc => g.play_other_no_line m hr.inv hacc⟩

theorem Game.never_both_win_witness :
    (Game.initial.run [.click 0, .click 4, .click 1, .click 5, .click 2]).board.checkWinner "X"
        = true
      ∧ ¬ ((Game.initial.run [.click 0, .click 4, .click 1, .click 5, .click 2]).board.checkWinner
            "X" = true
          ∧ (Game.initial.run [.click 0, .click 4, .click 1, .click 5, .click 2]).board.checkWinner
            "O" = true) :=
  ⟨by decide,
    (Game.never_both_win (Game.initial.run [.click 0, .click 4, .click 1, .click 5, .click 2])
      ⟨[.click 0, .click 4, .click 1, .click 5, .click 2], rfl⟩).1⟩

theorem Game.play_win_state (g : Game) (m : Move) (hX : g.players.1.name = "X")
    (hO : g.players.2.name = "O") (hacc : g.Accepts m) (hp : g.currentPlayerIndex < 2)
    (hw : (g.play m).game.board.checkWinner (if g.currentPlayerIndex = 0 then "X" else "O")
      = true) :
    (g.play m).game
      = ({ g with board := (g.play m).game.board } : Game).endGame false
          (some (if g.currentPlayerIndex = 0 then "X" else "O")) := by
  obtain ⟨j, p, -, -, hpp, hgame, -⟩ := g.play_accepted m hacc hp
  have hn := g.playerAt_name p hX hO hpp
  rw [hn] at hgame
  have hb := (g.makeMove_some_frame j (if g.currentPlayerIndex = 0 then "X" else "O")).1
  have e1 : (g.play m).game.board
      = g.board.write (some j) (if g.currentPlayerIndex = 0 then "X" else "O") := by
    rw [hgame, hb]
  rw [e1] at hw ⊢
  rw [hgame]
  exact Game.makeMove_some_win g j _ hw

/-- C17, the claim as stated fails: with the score of X at `2 ^ 53`, an
accepted click by X that fills the last empty cell and completes the row
`0,1,2` ends the game and leaves the score of X at `2 ^ 53`, not one more. -/
theorem Game.last_cell_win_at_score_limit_keeps_score :
    Game.scoreLimitLastCellExample.Accepts (.click 2)
      ∧ Game.scoreLimitLastCellExample.currentPlayerIndex = 0
      ∧ (Game.scoreLimitLastCellExample.play (.click 2)).game.board.isFull = true
      ∧ (Game.scoreLimitLastCellExample.play (.click 2)).game.board.checkWinner "X" = true
      ∧ (Game.scoreLimitLastCellExample.play (.click 2)).game.gameActive = false
      ∧ (Game.scoreLimitLastCellExample.play (.click 2)).game.players.1.score
          = Game.scoreLimitLastCellExample.players.1.score
      ∧ ¬ ((Game.scoreLimitLastCellExample.play (.click 2)).game.players.1.score
          = Game.scoreLimitLastCellExample.players.1.score + 1) :=
  ⟨⟨by decide, by decide⟩, by decide, by decide, by decide, by decide, by decide, by decide⟩

/-- C17, amended: an accepted move, with players X and O, that fills the last
empty cell and completes a full line for the mover ends the game through the
win branch, `endGame(false, symbol)` on the state with the new board, not
through the draw branch: `score++` is applied to the mover's score, which is
exactly one more than before whenever it was below `2 ^ 53`, and the other
score stays; and, for a mover's score below `2 ^ 53`, a move that ends the
game with both scores as they were (a draw) left the mover's symbol without a
full line. -/
theorem Game.win_before_draw (g : Game) (m : Move)
    (hX : g.players.1.name = "X") (hO : g.players.2.name = "O") (hacc : g.Accepts m) :
    (g.currentPlayerIndex = 0 → (g.play m).game.board.isFull = true →
        (g.play m).game.board.checkWinner "X" = true →
        (g.play m).game.gameActive = false
          ∧ (g.play m).game
              = ({ g with board := (g.play m).game.board } : Game).endGame false (some "X")
          ∧ (g.play m).game.players.1.score = numberIncrement g.players.1.score
          ∧ (g.players.1.score < 2 ^ 53 →
              (g.play m).game.players.1.score = g.players.1.score + 1)
          ∧ (g.play m).game.players.2.score = g.players.2.score)
      ∧ (g.currentPlayerIndex = 1 → (g.play m).game.board.isFull = true →
        (g.play m).game.board.checkWinner "O" = true →
        (g.play m).game.gameActive = false
          ∧ (g.play m).game
              = ({ g with board := (g.play m).game.board } : Game).endGame false (some "O")
          ∧ (g.play m).game.players.2.score = numberIncrement g.players.2.score
          ∧ (g.players.2.score < 2 ^ 53 →
              (g.play m).game.players.2.score = g.players.2.score + 1)
          ∧ (g.play m).game.players.1.score = g.players.1.score)
      ∧ ((g.play m).game.gameActive = false →
          (g.play m).game.players.1.score = g.players.1.score →
          (g.play m).game.players.2.score = g.players.2.score →
          (g.currentPlayerIndex = 0 → g.players.1.score < 2 ^ 53 →
              (g.play m).game.board.checkWinner "X" = false)
            ∧ (g.currentPlayerIndex = 1 → g.players.2.score < 2 ^ 53 →
              (g.play m).game.board.checkWinner "O" = false)) := by
  refine ⟨?_, ?_, ?_⟩
  · intro h0 _ hw
    have hst := g.play_win_state m hX hO hacc (by omega)
    rw [if_pos h0] at hst
    obtain ⟨_, -, -, -, -, -, -, -, hcases⟩ := g.play_cases m hX hO hacc (by omega)
    simp only [h0, ↓reduceIte] at hcases
    rcases hcases with ⟨-, hga, -, hs, -⟩ | ⟨hw2, -⟩ | ⟨hw2, -⟩
    · exact ⟨hga, hst hw, (hs trivial).1,
        fun hlt => by rw [(hs trivial).1, numberIncrement_of_lt _ hlt], (hs trivial).2⟩
    · rw [hw] at hw2; exact absurd hw2 (by decide)
    · rw [hw] at hw2; exact absurd hw2 (by decide)
  · intro h1 _ hw
    have hst := g.play_win_state m hX hO hacc (by omega)
    rw [if_neg (by omega : ¬ g.currentPlayerIndex = 0)] at hst
    obtain ⟨_, -, -, -, -, -, -, -, hcases⟩ := g.play_cases m hX hO hacc (by omega)
    simp only [h1, one_ne_zero, ↓reduceIte] at hcases
    rcases hcases with ⟨-, hga, -, -, hs⟩ | ⟨hw2, -⟩ | ⟨hw2, -⟩
    · exact ⟨hga, hst hw, (hs trivial).1,
        fun hlt => by rw [(hs trivial).1, numberIncrement_of_lt _ hlt], (hs trivial).2⟩
    · rw [hw] at hw2; exact absurd hw2 (by decide)
    · rw [hw] at hw2; exact absurd hw2 (by decide)
  · intro _ hs1 hs2
    constructor
    · intro h0 hlt
      obtain ⟨_, -, -, -, -, -, -, -, hcases⟩ := g.play_cases m hX hO hacc (by omega)
      simp only [h0, ↓reduceIte] at hcases
      rcases hcases with ⟨-, -, -, hs, -⟩ | ⟨hw2, -⟩ | ⟨hw2, -⟩
      · have hinc := (hs trivial).1
        rw [numberIncrement_of_lt _ hlt] at hinc
        omega
      · exact hw2
      · exact hw2
    · intro h1 hlt
      obtain ⟨_, -, -, -, -, -, -, -, hcases⟩ := g.play_cases m hX hO hacc (by omega)
      simp only [h1, one_ne_zero, ↓reduceIte] at hcases
      rcases hcases with ⟨-, -, -, -, hs⟩ | ⟨hw2, -⟩ | ⟨hw2, -⟩
      · have hinc := (hs trivial).1
        rw [numberIncrement_of_lt _ hlt] at hinc
        omega
      · exact hw2
      · exact hw2

theorem Game.win_before_draw_witness :
    (Game.initial.clicks [0, 3, 5, 4, 6, 7, 1, 8]).Accepts (.click 2)
      ∧ (Game.initial.clicks [0, 3, 5, 4, 6, 7, 1, 8, 2]).board.isFull = true
      ∧ (Game.initial.clicks [0, 3, 5, 4, 6, 7, 1, 8, 2]).board.checkWinner "X" = true
      ∧ (Game.initial.clicks [0, 3, 5, 4, 6, 7, 1, 8, 2]).gameActive = false
      ∧ (Game.initial.clicks [0, 3, 5, 4, 6, 7, 1, 8, 2]).players.1.score = 1
      ∧ (Game.initial.clicks [0, 3, 5, 4, 6, 7, 1, 8, 2]).players.2.score = 0 :=
  have h := (Game.win_before_draw (Game.initial.clicks [0, 3, 5, 4, 6, 7, 1, 8]) (.click 2)
    rfl rfl ⟨by decide, by decide⟩).1 (by decide) (by decide) (by decide)
  ⟨⟨by decide, by decide⟩, by decide, by decide, h.1, h.2.2.2.1 (by decide), h.2.2.2.2⟩

/-- C18, the claim as stated fails: the stored triple `[6, 7, 8]` holds the
index 8, which is not below 8. -/
theorem Board.winningConditions_holds_eight :
    (6, 7, 8) ∈ Board.winningConditions ∧ ¬ ((8 : Nat) < 8) :=
  ⟨by decide, by decide⟩

/-- C18, amended: every index in any of the 8 winning triples is below 9, that
is, lies in `0..8` and names a cell of the board. -/
theorem Board.winningConditions_in_range :
    ∀ t ∈ Board.winningConditions, t.1 < 9 ∧ t.2.1 < 9 ∧ t.2.2 < 9 := by
  decide

theorem Board.winningConditions_in_range_witness :
    (6, 7, 8) ∈ Board.winningConditions ∧ (6 : Nat) < 9 ∧ (7 : Nat) < 9 ∧ (8 : Nat) < 9 :=
  ⟨by decide, Board.winningConditions_in_range (6, 7, 8) (by decide)⟩

/-- C19: in every reachable state the number of X cells minus the number of O
cells is 0 or 1, and in an active game the turn index is 0 exactly when the
two numbers are equal and 1 exactly when X has one more. -/
theorem Game.mark_counts (g : Game) (hr : g.Reachable) :
    (((g.board.count "X" : Int) - (g.board.count "O" : Int) = 0)
        ∨ ((g.board.count "X" : Int) - (g.board.count "O" : Int) = 1))
      ∧ (g.gameActive = true →
          (g.currentPlayerIndex = 0 ↔ g.board.count "X" = g.board.count "O")
            ∧ (g.currentPlayerIndex = 1 ↔ g.board.count "X" = g.board.count "O" + 1)) := by
  have hinv := hr.inv
  have hturn := hinv.turn
  constructor
  · rcases hinv.counts with h | h
    · left; omega
    · right; omega
  · intro ha
    obtain ⟨h0, h1⟩ := hinv.countsTurn ha
    constructor
    · constructor
      · exact h0
      · intro he
        by_contra hne
        have := h1 (by omega)
        omega
    · constructor
      · exact h1
      · intro he
        by_contra hne
        have := h0 (by omega)
        omega

theorem Game.mark_counts_witness :
    (Game.initial.run [.click 0, .computer 2]).board.count "X" = 1
      ∧ (Game.initial.run [.click 0, .computer 2]).board.count "O" = 1
      ∧ (((Game.initial.run [.click 0, .computer 2]).board.count "X" : Int)
            - ((Game.initial.run [.click 0, .computer 2]).board.count "O" : Int) = 0
          ∨ ((Game.initial.run [.click 0, .computer 2]).board.count "X" : Int)
            - ((Game.initial.run [.click 0, .computer 2]).board.count "O" : Int) = 1) :=
  ⟨by decide, by decide,
    (Game.mark_counts (Game.initial.run [.click 0, .computer 2])
      ⟨[.click 0, .computer 2], rfl⟩).1⟩

/-! ### Rounds end -/

theorem Game.play_emptyCount (g : Game) (m : Move) (h : g.Inv) (hacc : g.Accepts m) :
    (g.play m).game.emptyCount + 1 = g.emptyCount := by
  obtain ⟨j, -, hempty, -, hboard, -, -, -, -⟩ :=
    g.play_cases m h.nameX h.nameO hacc h.turn
  show (g.play m).game.board.count "" + 1 = g.board.count ""
  rw [hboard]
  apply Board.count_empty_write _ _ _ hempty
  split <;> decide

theorem Game.plays_emptyCount (ms : List Move) :
    ∀ g : Game, g.Inv → g.AcceptsAll ms →
      (g.plays ms).Inv ∧ (g.plays ms).emptyCount + ms.length = g.emptyCount := by
  induction ms with
  | nil => intro g h _; exact ⟨h, rfl⟩
  | cons m rest ih =>
    intro g h hall
    obtain ⟨hacc, hrest⟩ := hall
    have hstep := g.play_emptyCount m h hacc
    obtain ⟨hinv, hcount⟩ := ih (g.play m).game (h.play g m) hrest
    refine ⟨hinv, ?_⟩
    show ((g.play m).game.plays rest).emptyCount + (rest.length + 1) = g.emptyCount
    omega

theorem Game.resetGame_emptyCount (g : Game) : g.resetGame.emptyCount = 9 := by
  show Board.new.count "" = 9
  decide

/-- C20: an accepted move in a reachable state lowers the number of empty
cells by exactly one; so a run of accepted moves from a freshly reset board,
with no reset in between, has at most 9 moves, and after a 9th accepted move
`gameActive` is false. -/
theorem Game.round_terminates (g : Game) (hr : g.Reachable) :
    (∀ m, g.Accepts m → (g.play m).game.emptyCount + 1 = g.emptyCount)
      ∧ (∀ ms, g.resetGame.AcceptsAll ms →
          ms.length ≤ 9 ∧ (ms.length = 9 → (g.resetGame.plays ms).gameActive = false)) := by
  have hinv := hr.inv
  refine ⟨fun m hacc => g.play_emptyCount m hinv hacc, ?_⟩
  intro ms hall
  have hfresh : g.resetGame.Inv := hinv.step g .resetGame
  obtain ⟨hend, hcount⟩ := Game.plays_emptyCount ms g.resetGame hfresh hall
  rw [g.resetGame_emptyCount] at hcount
  refine ⟨by omega, ?_⟩
  intro h9
  have hzero : (g.resetGame.plays ms).board.count "" = 0 := by
    have : (g.resetGame.plays ms).emptyCount = 0 := by omega
    exact this
  have hfull := ((g.resetGame.plays ms).board.count_empty_eq_zero_iff).1 hzero
  cases hact : (g.resetGame.plays ms).gameActive
  · rfl
  · have hnf := hend.notFull hact
    rw [hfull] at hnf
    exact absurd hnf (by decide)

theorem Game.round_terminates_witness :
    (Game.initial.play (.click 0)).game.emptyCount + 1 = Game.initial.emptyCount
      ∧ (Game.initial.resetGame.plays
          [.click 0, .click 1, .click 2, .click 4, .click 3, .click 5, .click 7, .click 6,
            .click 8]).gameActive = false :=
  have h := Game.round_terminates Game.initial ⟨[], rfl⟩
  ⟨h.1 (.click 0) ⟨rfl, rfl⟩,
    (h.2 [.click 0, .click 1, .click 2, .click 4, .click 3, .click 5, .click 7, .click 6,
        .click 8]
      ⟨⟨rfl, rfl⟩, ⟨rfl, rfl⟩, ⟨rfl, rfl⟩, ⟨rfl, rfl⟩, ⟨rfl, rfl⟩, ⟨rfl, rfl⟩, ⟨rfl, rfl⟩,
        ⟨rfl, rfl⟩, ⟨rfl, rfl⟩, trivial⟩).2 rfl⟩

end JogoDaVelha
